import Mathlib

/-!
Verification development for the classmarkets/go-dns-resolver library.

The Go sources are embedded shallowly: pure Go functions become Lean
functions, Go structs become Lean structures, the mutable state of the
cache and of the resolver walk is threaded explicitly, and the network
exchange performed by `dns.Client.ExchangeContext` is an explicit oracle
parameter.  Durations (`time.Duration`) are integers counting nanoseconds,
`time.Time` instants are integers, and TTL header fields are naturals as
in the wire format.
-/

namespace DnsResolver

/-- Record type code for A records (miekg/dns `dns.TypeA`). -/
def TypeA : Nat := 1

/-- Record type code for NS records (miekg/dns `dns.TypeNS`). -/
def TypeNS : Nat := 2

/-- Record type code for CNAME records (miekg/dns `dns.TypeCNAME`). -/
def TypeCNAME : Nat := 5

/-- Record type code for SOA records (miekg/dns `dns.TypeSOA`). -/
def TypeSOA : Nat := 6

/-- Record type code for AAAA records (miekg/dns `dns.TypeAAAA`). -/
def TypeAAAA : Nat := 28

/-- Class code for the Internet class (miekg/dns `dns.ClassINET`). -/
def ClassINET : Nat := 1

/-- Rcode for a successful response (miekg/dns `dns.RcodeSuccess`). -/
def RcodeSuccess : Nat := 0

/-- Rcode for a format error (miekg/dns `dns.RcodeFormatError`). -/
def RcodeFormatError : Nat := 1

/-- Rcode for a server failure (miekg/dns `dns.RcodeServerFailure`). -/
def RcodeServerFailure : Nat := 2

/-- Rcode for a name error, i.e. NXDOMAIN (miekg/dns `dns.RcodeNameError`). -/
def RcodeNameError : Nat := 3

/-- Rcode for "not implemented" (miekg/dns `dns.RcodeNotImplemented`). -/
def RcodeNotImplemented : Nat := 4

/-- Rcode for a refused query (miekg/dns `dns.RcodeRefused`). -/
def RcodeRefused : Nat := 5

/-- Nanoseconds in one `time.Second`. -/
def second : Int := 1000000000

/-- Nanoseconds in one `time.Millisecond`. -/
def millisecond : Int := 1000000

/-- Type-specific payload of a DNS record.  The Go engine inspects records
through type switches on `*dns.A`, `*dns.AAAA`, `*dns.NS` and `*dns.CNAME`;
all other concrete record types are only carried through verbatim, so they
are collapsed into one `other` constructor holding their textual value.
Address payloads are kept in their textual form because the Go code only
ever uses `rr.A.String()` / `rr.AAAA.String()` on them. -/
inductive RData where
  | a (ip : String)
  | aaaa (ip : String)
  | ns (target : String)
  | cname (target : String)
  | other (text : String)
deriving DecidableEq, Repr

/-- A DNS resource record: the `dns.RR_Header` fields the engine reads
(`Name`, `Rrtype`, `Class`, `Ttl`) plus the type-specific payload. -/
structure RR where
  name : String
  rrtype : Nat
  rrclass : Nat
  ttl : Nat
  rdata : RData
deriving DecidableEq, Repr

/-- A DNS question (`dns.Question`). -/
structure Question where
  name : String
  qtype : Nat
  qclass : Nat
deriving DecidableEq, Repr

/-- The parts of a `dns.Msg` the engine inspects: the rcode, the
authoritative flag, the echoed question section, and the three record
sections `Answer`, `Ns` (authority) and `Extra` (additional). -/
structure DnsMsg where
  rcode : Nat
  authoritative : Bool
  question : List Question := []
  answer : List RR
  ns : List RR
  extra : List RR
deriving DecidableEq, Repr

/-- Textual value of a record, `rrValue` in the Go code:
`strings.TrimPrefix(rr.String(), rr.Header().String())`, i.e. the
presentation of the payload with the header removed. -/
def rrValue (rr : RR) : String :=
  match rr.rdata with
  | RData.a ip => ip
  | RData.aaaa ip => ip
  | RData.ns target => target
  | RData.cname target => target
  | RData.other text => text

/-- Predicate `empty(m)` from the Go wire helpers: a nil message or one with
no records in any section.  `none` stands for a nil `*dns.Msg`. -/
def emptyMsg : Option DnsMsg → Bool
  | none => true
  | some m => m.answer.length + m.ns.length + m.extra.length == 0

/-- Predicate `isAuthoritative(m)` from the Go wire helpers. -/
def isAuthoritative : Option DnsMsg → Bool
  | none => false
  | some m => m.authoritative

/-- Helper `trimTrailingDot` from the Go wire helpers. -/
def trimTrailingDot (s : String) : String :=
  if s = "." then s else if s.endsWith "." then s.dropRight 1 else s

/-- An IP address: either a 32-bit IPv4 number or a 128-bit IPv6 number.
`net.IP` values are byte strings; the engine only compares them against
CIDR ranges and checks the family, which these two views support. -/
inductive IP where
  | v4 (addr : Nat)
  | v6 (addr : Nat)
deriving DecidableEq, Repr

/-- Numeric value of a dotted-quad IPv4 address. -/
def v4num (a b c d : Nat) : Nat :=
  ((a * 256 + b) * 256 + c) * 256 + d

/-- A CIDR range as produced by `net.ParseCIDR`: the address family, the
(pre-masked) base address, and the number of leading one bits in the mask. -/
structure IPNet where
  isV4 : Bool
  base : Nat
  ones : Nat
deriving DecidableEq, Repr

/-- Conversion `ip.To4()`: an IPv4 address is its own To4; an IPv6 address
has a To4 form exactly when it is IPv4-mapped (`::ffff:a.b.c.d`). -/
def ipTo4 : IP → Option Nat
  | IP.v4 n => some n
  | IP.v6 n => if n / 2 ^ 32 = 0xffff then some (n % 2 ^ 32) else none

/-- Membership test `(*net.IPNet).Contains`: convert the address with
`To4` if possible, require matching lengths, then compare the masked
prefixes. -/
def ipnetContains (n : IPNet) (ip : IP) : Bool :=
  match ipTo4 ip with
  | some v4addr =>
      n.isV4 && (v4addr / 2 ^ (32 - n.ones) == n.base / 2 ^ (32 - n.ones))
  | none =>
      match ip with
      | IP.v4 _ => false
      | IP.v6 v6addr =>
          !n.isV4 && (v6addr / 2 ^ (128 - n.ones) == n.base / 2 ^ (128 - n.ones))

/-- CIDR constructor for IPv4 ranges, mirroring `mustParseCIDR`. -/
def cidr4 (a b c d : Nat) (ones : Nat) : IPNet :=
  { isV4 := true, base := v4num a b c d, ones := ones }

/-- CIDR constructor for IPv6 ranges, mirroring `mustParseCIDR`; the base
is given as the full 128-bit number. -/
def cidr6 (base : Nat) (ones : Nat) : IPNet :=
  { isV4 := false, base := base, ones := ones }

/-- The `PrivateNets` list from the current policy file (the one defining
the three-argument `TimeoutPolicy`), in source order. -/
def PrivateNets : List IPNet :=
  [ cidr4 10 0 0 0 8
  , cidr4 127 0 0 0 8
  , cidr4 169 254 0 0 16
  , cidr4 172 16 0 0 12
  , cidr4 192 0 0 0 24
  , cidr4 192 0 2 0 24
  , cidr4 192 168 0 0 16
  , cidr4 198 18 0 0 15
  , cidr4 198 51 100 0 24
  , cidr4 203 0 113 0 24
  , cidr4 233 252 0 0 24
  , cidr6 1 128
  , cidr6 (0x20010db8 * 2 ^ 96) 32
  , cidr6 (0xfd * 2 ^ 120) 8
  , cidr6 (0xfe80 * 2 ^ 112) 10
  ]

/-- The default timeout policy `defaultTimeoutPolicy(recordType, domainName,
nameServerAddress)`.  The Go function splits the `ip:port` string and parses
the host; here the endpoint is taken already parsed as an `IP` (the Go code
panics when the address does not parse, so only parsed addresses reach the
range check).  It returns 100 ms when the address lies in one of the
`PrivateNets` ranges and 1 s otherwise. -/
def defaultTimeoutPolicy (recordType domainName : String) (endpointIP : IP) : Int :=
  if PrivateNets.any (fun n => ipnetContains n endpointIP) then
    100 * millisecond
  else
    1 * second

/-- The public `RecordSet` structure (current version, with `Raw`,
`ServerAddr` and `Type`); the `Trace` pointer is kept out of this value
and handled by the walk model separately. -/
structure RecordSet where
  raw : DnsMsg
  name : String
  type : String
  ttl : Int
  values : List String
  serverAddr : String
  age : Int
  rtt : Int
deriving DecidableEq, Repr

/-- The cache policy `ObeyResponderAdvice(negativeTTL)`: returns
`negativeTTL` when the record set's `Type` field is the literal string
"NXDOMAIN" and the set's own TTL otherwise (current version, which reads
`rs.Type`). -/
def ObeyResponderAdvice (negativeTTL : Int) (rs : RecordSet) : Int :=
  if rs.type = "NXDOMAIN" then negativeTTL else rs.ttl

/-- The reserved/private ranges enumerated by the amended claim C9, in the
order of the amended wording: RFC 1918, loopback, link-local,
documentation/benchmarking/example ranges, the remaining IANA special
ranges present in the source, and the IPv6 unique-local range.  The
carrier-grade-NAT range 100.64.0.0/10 of RFC 6598 is deliberately absent,
matching the source's `PrivateNets`. -/
def amendedReservedRanges : List IPNet :=
  [ cidr4 10 0 0 0 8
  , cidr4 172 16 0 0 12
  , cidr4 192 168 0 0 16
  , cidr4 127 0 0 0 8
  , cidr6 1 128
  , cidr4 169 254 0 0 16
  , cidr6 (0xfe80 * 2 ^ 112) 10
  , cidr4 192 0 2 0 24
  , cidr4 198 51 100 0 24
  , cidr4 203 0 113 0 24
  , cidr6 (0x20010db8 * 2 ^ 96) 32
  , cidr4 233 252 0 0 24
  , cidr4 192 0 0 0 24
  , cidr4 198 18 0 0 15
  , cidr6 (0xfd * 2 ^ 120) 8
  ]

/-- Claim C9 (counterexample): the address 100.64.0.1 lies in the RFC 6598
carrier-grade-NAT range 100.64.0.0/10, which the claim lists among the
reserved/private ranges that must yield a 100 ms timeout, yet the default
timeout policy returns 1 s for it: `PrivateNets` has no RFC 6598 entry. -/
theorem C9_counterexample :
    ipnetContains (cidr4 100 64 0 0 10) (IP.v4 (v4num 100 64 0 1)) = true ∧
    defaultTimeoutPolicy "A" "example.com." (IP.v4 (v4num 100 64 0 1)) = 1 * second ∧
    1 * second ≠ 100 * millisecond := by
  refine ⟨by decide, by decide, by decide⟩

/-- Claim C9 (amended): for every record type, domain name and endpoint IP,
the default timeout policy returns 100 ms exactly when the IP lies in one
of the reserved/private ranges of the amended enumeration (RFC 1918,
loopback, link-local, documentation ranges, the remaining IANA special
ranges, and their IPv6 equivalents — without RFC 6598), and 1 s
otherwise. -/
theorem C9_amended (recordType domainName : String) (ip : IP) :
    defaultTimeoutPolicy recordType domainName ip =
      if amendedReservedRanges.any (fun n => ipnetContains n ip) then
        100 * millisecond
      else
        1 * second := by
  have hsub1 : ∀ n : IPNet, n ∈ amendedReservedRanges → n ∈ PrivateNets := by decide
  have hsub2 : ∀ n : IPNet, n ∈ PrivateNets → n ∈ amendedReservedRanges := by decide
  have h : amendedReservedRanges.any (fun n => ipnetContains n ip)
      = PrivateNets.any (fun n => ipnetContains n ip) := by
    rw [Bool.eq_iff_iff]
    simp only [List.any_eq_true]
    constructor
    · rintro ⟨n, hn, hp⟩
      exact ⟨n, hsub1 n hn, hp⟩
    · rintro ⟨n, hn, hp⟩
      exact ⟨n, hsub2 n hn, hp⟩
  rw [defaultTimeoutPolicy, h]

/-- The SERVFAIL response used in the C8 counterexample. -/
def servfailMsg : DnsMsg :=
  { rcode := RcodeServerFailure
  , authoritative := true
  , answer := []
  , ns := []
  , extra := [] }

/-- A record set describing `servfailMsg`: its `Type` field holds the
string representation of the error, as the `RecordSet` documentation
describes for error responses. -/
def servfailRecordSet : RecordSet :=
  { raw := servfailMsg
  , name := "www.example.com"
  , type := "SERVFAIL"
  , ttl := 5 * second
  , values := []
  , serverAddr := "127.0.0.101:5354"
  , age := -1 * second
  , rtt := 0 }

/-- Claim C8 (counterexample): `ObeyResponderAdvice(30 s)` applied to a
record set describing a SERVFAIL response — a non-success rcode — returns
the set's own 5 s TTL, not the 30 s negative TTL the claim requires for
every non-success rcode: the policy compares `rs.Type` against the literal
"NXDOMAIN" only. -/
theorem C8_counterexample :
    servfailRecordSet.raw.rcode = RcodeServerFailure ∧
    servfailRecordSet.raw.rcode ≠ RcodeSuccess ∧
    ObeyResponderAdvice (30 * second) servfailRecordSet = 5 * second ∧
    (5 : Int) * second ≠ 30 * second := by
  refine ⟨rfl, by decide, by decide, by decide⟩

/-- Claim C8 (amended): `ObeyResponderAdvice(d)` returns `d` exactly for
record sets whose `Type` field is the literal string "NXDOMAIN"; every
other record set — regardless of the rcode its raw response carries —
gets its own TTL back. -/
theorem C8_amended (d : Int) (rs : RecordSet) :
    (rs.type = "NXDOMAIN" → ObeyResponderAdvice d rs = d) ∧
    (rs.type ≠ "NXDOMAIN" → ObeyResponderAdvice d rs = rs.ttl) := by
  constructor
  · intro h
    simp [ObeyResponderAdvice, h]
  · intro h
    simp [ObeyResponderAdvice, h]

/-- Witness for the amended claim C8, discharging both hypotheses at
concrete record sets: the SERVFAIL set gets its own TTL, and the same set
relabelled "NXDOMAIN" gets the negative TTL. -/
theorem C8_amended_witness :
    ObeyResponderAdvice (30 * second) servfailRecordSet = servfailRecordSet.ttl ∧
    ObeyResponderAdvice (30 * second) { servfailRecordSet with type := "NXDOMAIN" } = 30 * second := by
  exact ⟨(C8_amended (30 * second) servfailRecordSet).2 (by decide),
    (C8_amended (30 * second) { servfailRecordSet with type := "NXDOMAIN" }).1 rfl⟩

/-- Cache key (`cacheKey` in cache/cache.go): the server address string and
the question. -/
structure CacheKey where
  addr : String
  q : Question
deriving DecidableEq, Repr

/-- Cache item (`cacheItem`): the stored message, the insertion time and the
policy-assigned TTL.  The `elem` pointer into the LRU list is represented
by membership of the key in the LRU list instead (it is nil exactly when
the key is absent from the map).  The payload type is a parameter so that
the same logic can be instantiated with message values and with message
pointers. -/
structure CacheItem (α : Type) where
  msg : α
  addedAt : Int
  ttl : Int
deriving DecidableEq, Repr

/-- The state of a `cache.Cache`: the capacity, the mapping (as an
association list), the LRU list of keys (front = least recently used,
back = most recently used, as with `container/list` push-back), and a flag
recording whether one of the fatal `panic` branches was reached. -/
structure CacheState (α : Type) where
  maxSize : Int
  entries : List (CacheKey × CacheItem α)
  lru : List CacheKey
  panicked : Bool
deriving DecidableEq, Repr

/-- Constructor `cache.New(maxSize)`. -/
def Cache.new (α : Type) (maxSize : Int) : CacheState α :=
  { maxSize := maxSize, entries := [], lru := [], panicked := false }

/-- Map lookup `c.cache[key]` (presence form). -/
def lookupEntry (k : CacheKey) (es : List (CacheKey × CacheItem α)) : Option (CacheItem α) :=
  (es.find? (fun e => e.1 == k)).map (fun e => e.2)

/-- Map write `c.cache[key] = ci`: replace the binding if present, insert
otherwise. -/
def setEntry (k : CacheKey) (item : CacheItem α) (es : List (CacheKey × CacheItem α)) :
    List (CacheKey × CacheItem α) :=
  if es.any (fun e => e.1 == k) then
    es.map (fun e => if e.1 == k then (k, item) else e)
  else
    es ++ [(k, item)]

/-- Map delete `delete(c.cache, key)`. -/
def eraseEntry (k : CacheKey) (es : List (CacheKey × CacheItem α)) :
    List (CacheKey × CacheItem α) :=
  es.filter (fun e => !(e.1 == k))

/-- LRU move `c.lru.MoveToBack(elem)`: remove the key's element and
reinsert it at the back. -/
def moveToBack (k : CacheKey) (l : List CacheKey) : List CacheKey :=
  l.erase k ++ [k]

/-- Method `(*Cache).Clear`. -/
def Cache.clear (s : CacheState α) : CacheState α :=
  { s with entries := [], lru := [] }

/-- Method `(*Cache).Lookup(q, addr)` at time `now`.  Returns the new state
together with the returned message (nil on a miss), the lookup RTT and the
age; a miss returns age `-1 * second`.  An expired entry (insertion time
plus TTL before `now`) is removed and reported as a miss; a hit moves the
key to the back of the LRU list and returns the stored message (`Copy` is
the identity on message values) with age `now - addedAt`. -/
def Cache.lookup (s : CacheState α) (q : Question) (addr : String) (now : Int) :
    CacheState α × Option α × Int × Int :=
  match lookupEntry { addr := addr, q := q } s.entries with
  | none => (s, none, 0, -1 * second)
  | some ci =>
      if ci.addedAt + ci.ttl < now then
        ({ s with
            entries := eraseEntry { addr := addr, q := q } s.entries
            lru := s.lru.erase { addr := addr, q := q } },
          none, 0, -1 * second)
      else
        ({ s with lru := moveToBack { addr := addr, q := q } s.lru },
          some ci.msg, 0, now - ci.addedAt)

/-- Eviction loop `(*Cache).prune`: while the map is over capacity, remove
the front (least recently used) key from both structures.  Taking the
front of an empty LRU list dereferences nil in Go; that branch sets the
panic flag. -/
def Cache.prune (maxSize : Int) :
    List (CacheKey × CacheItem α) → List CacheKey →
      List (CacheKey × CacheItem α) × List CacheKey × Bool
  | es, lru =>
      if (es.length : Int) > maxSize then
        match lru with
        | [] => (es, lru, true)
        | k :: rest => Cache.prune maxSize (eraseEntry k es) rest
      else
        (es, lru, false)

/-- Method `(*Cache).Update(q, addr, resp, ttl)` at time `now`.  The item
is written with the copied message and fresh insertion time, pushed to or
moved to the back of the LRU list, the cache is pruned, and the final
size check `c.lru.Len() != len(c.cache)` sets the panic flag when it
trips. -/
def Cache.updatedLru (s : CacheState α) (key : CacheKey) : List CacheKey :=
  if (lookupEntry key s.entries).isSome = true then moveToBack key s.lru
  else s.lru ++ [key]

def Cache.update (s : CacheState α) (q : Question) (addr : String) (resp : α)
    (ttl : Int) (now : Int) : CacheState α :=
  { s with
    entries := (Cache.prune s.maxSize
      (setEntry { addr := addr, q := q } { msg := resp, addedAt := now, ttl := ttl } s.entries)
      (Cache.updatedLru s { addr := addr, q := q })).1
    lru := (Cache.prune s.maxSize
      (setEntry { addr := addr, q := q } { msg := resp, addedAt := now, ttl := ttl } s.entries)
      (Cache.updatedLru s { addr := addr, q := q })).2.1
    panicked := s.panicked ||
      (Cache.prune s.maxSize
        (setEntry { addr := addr, q := q } { msg := resp, addedAt := now, ttl := ttl } s.entries)
        (Cache.updatedLru s { addr := addr, q := q })).2.2 ||
      !((Cache.prune s.maxSize
          (setEntry { addr := addr, q := q } { msg := resp, addedAt := now, ttl := ttl } s.entries)
          (Cache.updatedLru s { addr := addr, q := q })).2.1.length ==
        (Cache.prune s.maxSize
          (setEntry { addr := addr, q := q } { msg := resp, addedAt := now, ttl := ttl } s.entries)
          (Cache.updatedLru s { addr := addr, q := q })).1.length) }

/-- One cache operation of the sequences quantified over by claim C5. -/
inductive CacheOp (α : Type) where
  | update (q : Question) (addr : String) (resp : α) (ttl : Int) (now : Int)
  | lookup (q : Question) (addr : String) (now : Int)
  | clear
deriving Repr

/-- Apply one cache operation (the values returned by `Lookup` are not
needed for the size invariant). -/
def applyCacheOp (s : CacheState α) : CacheOp α → CacheState α
  | CacheOp.update q addr resp ttl now => Cache.update s q addr resp ttl now
  | CacheOp.lookup q addr now => (Cache.lookup s q addr now).1
  | CacheOp.clear => Cache.clear s

/-- Apply a sequence of cache operations. -/
def applyCacheOps (s : CacheState α) (ops : List (CacheOp α)) : CacheState α :=
  ops.foldl applyCacheOp s

/-- Well-formedness of a cache state: nonnegative capacity, duplicate-free
key structures, the mapping and the LRU list holding exactly the same
keys, size within capacity, and no panic reached. -/
structure CacheWF (s : CacheState α) : Prop where
  maxNonneg : 0 ≤ s.maxSize
  keysNodup : (s.entries.map Prod.fst).Nodup
  lruNodup : s.lru.Nodup
  memIff : ∀ k, k ∈ s.entries.map Prod.fst ↔ k ∈ s.lru
  sizeLe : (s.entries.length : Int) ≤ s.maxSize
  notPanicked : s.panicked = false

lemma lookupEntry_nil (k : CacheKey) : lookupEntry k ([] : List (CacheKey × CacheItem α)) = none :=
  rfl

lemma lookupEntry_cons_pos (k : CacheKey) (e : CacheKey × CacheItem α)
    (t : List (CacheKey × CacheItem α)) (h : e.1 = k) :
    lookupEntry k (e :: t) = some e.2 := by
  unfold lookupEntry
  rw [List.find?_cons_of_pos _ (by simp [h])]
  rfl

lemma lookupEntry_cons_neg (k : CacheKey) (e : CacheKey × CacheItem α)
    (t : List (CacheKey × CacheItem α)) (h : ¬ e.1 = k) :
    lookupEntry k (e :: t) = lookupEntry k t := by
  unfold lookupEntry
  rw [List.find?_cons_of_neg _ (by simp [h])]

lemma any_key_iff (k : CacheKey) (es : List (CacheKey × CacheItem α)) :
    es.any (fun e => e.1 == k) = true ↔ k ∈ es.map Prod.fst := by
  rw [List.any_eq_true]
  constructor
  · rintro ⟨e, he, hc⟩
    exact List.mem_map.mpr ⟨e, he, beq_iff_eq.mp hc⟩
  · intro hm
    rcases List.mem_map.mp hm with ⟨e, he, hfst⟩
    exact ⟨e, he, beq_iff_eq.mpr hfst⟩

lemma lookupEntry_isSome_iff (k : CacheKey) (es : List (CacheKey × CacheItem α)) :
    (lookupEntry k es).isSome = true ↔ k ∈ es.map Prod.fst := by
  induction es with
  | nil => simp [lookupEntry_nil]
  | cons e t ih =>
      by_cases hek : e.1 = k
      · rw [lookupEntry_cons_pos k e t hek]
        simp [hek]
      · rw [lookupEntry_cons_neg k e t hek]
        simp only [List.map_cons, List.mem_cons]
        rw [ih]
        have : ¬ k = e.1 := fun hc => hek hc.symm
        simp [this]

lemma lookupEntry_eq_none_iff (k : CacheKey) (es : List (CacheKey × CacheItem α)) :
    lookupEntry k es = none ↔ k ∉ es.map Prod.fst := by
  rw [← lookupEntry_isSome_iff k es]
  cases lookupEntry k es <;> simp

lemma keys_eraseEntry (k : CacheKey) (es : List (CacheKey × CacheItem α)) :
    (eraseEntry k es).map Prod.fst = (es.map Prod.fst).filter (fun x => !(x == k)) := by
  unfold eraseEntry
  induction es with
  | nil => rfl
  | cons e t ih =>
      by_cases hek : e.1 = k
      · simp [List.filter_cons, hek, ih]
      · simp [List.filter_cons, hek, ih]

lemma lookupEntry_eraseEntry_ne (k k' : CacheKey) (es : List (CacheKey × CacheItem α))
    (h : k' ≠ k) : lookupEntry k' (eraseEntry k es) = lookupEntry k' es := by
  unfold eraseEntry
  induction es with
  | nil => rfl
  | cons e t ih =>
      by_cases hek : e.1 = k
      · have hne : ¬ e.1 = k' := fun hc => h (by rw [← hc, hek])
        simp [List.filter_cons, hek, ih, lookupEntry_cons_neg k' e t hne]
      · by_cases hek2 : e.1 = k'
        · simp [List.filter_cons, hek,
            lookupEntry_cons_pos k' e (List.filter (fun e => !(e.1 == k)) t) hek2,
            lookupEntry_cons_pos k' e t hek2]
        · simp [List.filter_cons, hek, ih,
            lookupEntry_cons_neg k' e (List.filter (fun e => !(e.1 == k)) t) hek2,
            lookupEntry_cons_neg k' e t hek2]

lemma keys_setEntry (k : CacheKey) (item : CacheItem α) (es : List (CacheKey × CacheItem α)) :
    (setEntry k item es).map Prod.fst =
      if k ∈ es.map Prod.fst then es.map Prod.fst else es.map Prod.fst ++ [k] := by
  unfold setEntry
  by_cases hmem : k ∈ es.map Prod.fst
  · rw [if_pos ((any_key_iff k es).mpr hmem), if_pos hmem, List.map_map]
    apply List.map_congr_left
    intro e _
    by_cases hek : e.1 = k
    · simp [hek]
    · simp [hek]
  · rw [if_neg (fun hc => hmem ((any_key_iff k es).mp hc)), if_neg hmem]
    simp

lemma lookupEntry_setEntry_self (k : CacheKey) (item : CacheItem α)
    (es : List (CacheKey × CacheItem α)) :
    lookupEntry k (setEntry k item es) = some item := by
  unfold setEntry
  by_cases hmem : es.any (fun e => e.1 == k) = true
  · rw [if_pos hmem]
    induction es with
    | nil => simp at hmem
    | cons e t ih =>
        by_cases hek : e.1 = k
        · rw [List.map_cons]
          rw [show ((if e.1 == k then (k, item) else e) = (k, item)) from by simp [hek]]
          exact lookupEntry_cons_pos k (k, item) _ rfl
        · have hmem2 : t.any (fun e => e.1 == k) = true := by
            rcases List.any_eq_true.mp hmem with ⟨x, hx, hpx⟩
            rcases List.mem_cons.mp hx with hx1 | hx2
            · exact absurd (beq_iff_eq.mp (hx1 ▸ hpx)) hek
            · exact List.any_eq_true.mpr ⟨x, hx2, hpx⟩
          rw [List.map_cons]
          rw [show ((if e.1 == k then (k, item) else e) = e) from by simp [hek]]
          rw [lookupEntry_cons_neg k e _ hek]
          exact ih hmem2
  · rw [if_neg hmem]
    induction es with
    | nil => exact lookupEntry_cons_pos k (k, item) [] rfl
    | cons e t ih =>
        have hek : ¬ e.1 = k := by
          intro hc
          exact hmem (List.any_eq_true.mpr ⟨e, List.mem_cons_self e t, beq_iff_eq.mpr hc⟩)
        have hmem2 : ¬ t.any (fun e => e.1 == k) = true := by
          intro hc
          rcases List.any_eq_true.mp hc with ⟨x, hx, hpx⟩
          exact hmem (List.any_eq_true.mpr ⟨x, List.mem_cons_of_mem e hx, hpx⟩)
        rw [List.cons_append, lookupEntry_cons_neg k e _ hek]
        exact ih hmem2

lemma nodup_length_eq {l1 l2 : List CacheKey} (h1 : l1.Nodup) (h2 : l2.Nodup)
    (h : ∀ a, a ∈ l1 ↔ a ∈ l2) : l1.length = l2.length :=
  ((List.perm_ext_iff_of_nodup h1 h2).2 h).length_eq

lemma prune_spec {α : Type} (maxSize : Int) (hmax : 0 ≤ maxSize) :
    ∀ (lru : List CacheKey) (es : List (CacheKey × CacheItem α)),
      (es.map Prod.fst).Nodup → lru.Nodup →
      (∀ x, x ∈ es.map Prod.fst ↔ x ∈ lru) →
      ((Cache.prune maxSize es lru).1.map Prod.fst).Nodup ∧
      (Cache.prune maxSize es lru).2.1.Nodup ∧
      (∀ x, x ∈ (Cache.prune maxSize es lru).1.map Prod.fst ↔
        x ∈ (Cache.prune maxSize es lru).2.1) ∧
      ((Cache.prune maxSize es lru).1.length : Int) ≤ maxSize ∧
      (Cache.prune maxSize es lru).2.2 = false ∧
      (∀ k, k ∈ (Cache.prune maxSize es lru).2.1 →
        lookupEntry k (Cache.prune maxSize es lru).1 = lookupEntry k es) ∧
      (Cache.prune maxSize es lru).2.1 <:+ lru := by
  intro lru
  induction lru with
  | nil =>
      intro es hk hl hm
      have hes : es.map Prod.fst = [] := by
        cases hmap : es.map Prod.fst with
        | nil => rfl
        | cons a t =>
            have : a ∈ ([] : List CacheKey) := (hm a).mp (by rw [hmap]; exact List.mem_cons_self a t)
            simp at this
      have hlen : es.length = 0 := by
        have := congrArg List.length hes
        simpa using this
      rw [Cache.prune]
      have hcond : ¬ ((es.length : Int) > maxSize) := by
        rw [hlen]
        exact not_lt.mpr (by exact_mod_cast hmax)
      rw [if_neg hcond]
      refine ⟨hk, hl, hm, ?_, rfl, fun k _ => rfl, List.suffix_refl _⟩
      rw [hlen]
      exact_mod_cast hmax
  | cons khd rest ih =>
      intro es hk hl hm
      rw [Cache.prune]
      by_cases hcond : (es.length : Int) > maxSize
      · rw [if_pos hcond]
        have hknotin : khd ∉ rest := (List.nodup_cons.mp hl).1
        have hrestnodup : rest.Nodup := (List.nodup_cons.mp hl).2
        have hkeys : ((eraseEntry khd es).map Prod.fst).Nodup := by
          rw [keys_eraseEntry]
          exact hk.filter _
        have hmem2 : ∀ x, x ∈ (eraseEntry khd es).map Prod.fst ↔ x ∈ rest := by
          intro x
          rw [keys_eraseEntry, List.mem_filter]
          constructor
          · rintro ⟨hxk, hxne⟩
            have hxlru := (hm x).mp hxk
            rcases List.mem_cons.mp hxlru with hx1 | hx2
            · exact absurd hx1 (by simpa using hxne)
            · exact hx2
          · intro hx
            have hxne : x ≠ khd := fun hc => hknotin (hc ▸ hx)
            exact ⟨(hm x).mpr (List.mem_cons_of_mem khd hx), by simpa using hxne⟩
        rcases ih (eraseEntry khd es) hkeys hrestnodup hmem2 with
          ⟨c1, c2, c3, c4, c5, c6, c7⟩
        refine ⟨c1, c2, c3, c4, c5, ?_, c7.trans (List.suffix_cons khd rest)⟩
        intro k hkmem
        have hkrest : k ∈ rest := c7.subset hkmem
        have hkne : k ≠ khd := fun hc => hknotin (hc ▸ hkrest)
        rw [c6 k hkmem]
        exact lookupEntry_eraseEntry_ne khd k es hkne
      · rw [if_neg hcond]
        exact ⟨hk, hl, hm, not_lt.mp hcond, rfl, fun k _ => rfl, List.suffix_refl _⟩

lemma moveToBack_nodup {l : List CacheKey} {key : CacheKey} (h : l.Nodup) :
    (moveToBack key l).Nodup := by
  have h1 : (l.erase key).Nodup := h.erase key
  have h2 : key ∉ l.erase key := fun hc => (h.mem_erase_iff.mp hc).1 rfl
  unfold moveToBack
  simp [List.nodup_append, h1, h2]

lemma mem_moveToBack_iff {l : List CacheKey} {key : CacheKey} (h : l.Nodup) (hk : key ∈ l)
    (x : CacheKey) : x ∈ moveToBack key l ↔ x ∈ l := by
  unfold moveToBack
  rw [List.mem_append, List.mem_singleton, h.mem_erase_iff]
  constructor
  · rintro (⟨_, hx⟩ | rfl)
    · exact hx
    · exact hk
  · intro hx
    by_cases hxk : x = key
    · exact Or.inr hxk
    · exact Or.inl ⟨hxk, hx⟩

lemma mem_suffix_last {l2 l : List CacheKey} {a : CacheKey}
    (h : l2 <:+ (l ++ [a])) (hne : l2 ≠ []) : a ∈ l2 := by
  rcases h with ⟨p, hp⟩
  have h1 : (p ++ l2).getLast? = l2.getLast? := List.getLast?_append_of_ne_nil p hne
  have h2 : (l ++ [a]).getLast? = some a := by
    rw [List.getLast?_append_of_ne_nil l (by simp)]
    rfl
  rw [hp, h2] at h1
  have h3 : a ∈ l2.getLast? := by rw [← h1]; rfl
  rcases List.mem_getLast?_eq_getLast h3 with ⟨hne2, heq⟩
  rw [heq]
  exact List.getLast_mem hne2

lemma cacheWF_clear {α : Type} {s : CacheState α} (h : CacheWF s) : CacheWF (Cache.clear s) := by
  refine ⟨h.maxNonneg, by simp [Cache.clear], by simp [Cache.clear], by simp [Cache.clear],
    ?_, ?_⟩
  · simpa [Cache.clear] using h.maxNonneg
  · simpa [Cache.clear] using h.notPanicked

lemma cacheWF_lookup {α : Type} {s : CacheState α} (q : Question) (addr : String) (now : Int)
    (h : CacheWF s) : CacheWF (Cache.lookup s q addr now).1 := by
  unfold Cache.lookup
  split
  · exact h
  · next ci hl =>
      split
      · next hexp =>
          refine ⟨h.maxNonneg, ?_, ?_, ?_, ?_, ?_⟩
          · show ((eraseEntry { addr := addr, q := q } s.entries).map Prod.fst).Nodup
            rw [keys_eraseEntry]
            exact h.keysNodup.filter _
          · exact h.lruNodup.erase _
          · intro x
            show x ∈ (eraseEntry { addr := addr, q := q } s.entries).map Prod.fst ↔
              x ∈ s.lru.erase { addr := addr, q := q }
            rw [keys_eraseEntry, List.mem_filter, h.lruNodup.mem_erase_iff]
            constructor
            · rintro ⟨h1, h2⟩
              exact ⟨by simpa using h2, (h.memIff x).mp h1⟩
            · rintro ⟨h1, h2⟩
              exact ⟨(h.memIff x).mpr h2, by simpa using h1⟩
          · show ((eraseEntry { addr := addr, q := q } s.entries).length : Int) ≤ s.maxSize
            have hle : (eraseEntry { addr := addr, q := q } s.entries).length ≤ s.entries.length :=
              List.length_filter_le _ _
            exact le_trans (by exact_mod_cast hle) h.sizeLe
          · exact h.notPanicked
      · next hexp =>
          have hkmem : ({ addr := addr, q := q } : CacheKey) ∈ s.lru :=
            (h.memIff _).mp ((lookupEntry_isSome_iff _ s.entries).mp (by rw [hl]; rfl))
          refine ⟨h.maxNonneg, h.keysNodup, ?_, ?_, h.sizeLe, h.notPanicked⟩
          · exact moveToBack_nodup h.lruNodup
          · intro x
            show x ∈ s.entries.map Prod.fst ↔ x ∈ moveToBack { addr := addr, q := q } s.lru
            rw [mem_moveToBack_iff h.lruNodup hkmem x]
            exact h.memIff x

lemma cacheWF_after_prune {α : Type} {s : CacheState α}
    (es1 : List (CacheKey × CacheItem α)) (lru1 : List CacheKey) (h : CacheWF s)
    (hk1 : (es1.map Prod.fst).Nodup) (hl1 : lru1.Nodup)
    (hm1 : ∀ x, x ∈ es1.map Prod.fst ↔ x ∈ lru1) :
    CacheWF
      { s with
        entries := (Cache.prune s.maxSize es1 lru1).1
        lru := (Cache.prune s.maxSize es1 lru1).2.1
        panicked := s.panicked || (Cache.prune s.maxSize es1 lru1).2.2 ||
          !((Cache.prune s.maxSize es1 lru1).2.1.length == (Cache.prune s.maxSize es1 lru1).1.length) } := by
  rcases prune_spec s.maxSize h.maxNonneg lru1 es1 hk1 hl1 hm1 with ⟨c1, c2, c3, c4, c5, _, _⟩
  have hlen : (Cache.prune s.maxSize es1 lru1).2.1.length
      = (Cache.prune s.maxSize es1 lru1).1.length := by
    have := nodup_length_eq c2 c1 (fun a => (c3 a).symm)
    rw [List.length_map] at this
    exact this
  exact ⟨h.maxNonneg, c1, c2, c3, c4, by simp [h.notPanicked, c5, hlen]⟩

lemma cacheWF_update {α : Type} {s : CacheState α} (q : Question) (addr : String) (resp : α)
    (ttl : Int) (now : Int) (h : CacheWF s) : CacheWF (Cache.update s q addr resp ttl now) := by
  unfold Cache.update
  by_cases hsome : (lookupEntry { addr := addr, q := q } s.entries).isSome = true
  · have hlru : Cache.updatedLru s { addr := addr, q := q }
        = moveToBack { addr := addr, q := q } s.lru := by
      unfold Cache.updatedLru
      rw [if_pos hsome]
    rw [hlru]
    have hkin : ({ addr := addr, q := q } : CacheKey) ∈ s.entries.map Prod.fst :=
      (lookupEntry_isSome_iff _ s.entries).mp hsome
    have hkinlru : ({ addr := addr, q := q } : CacheKey) ∈ s.lru := (h.memIff _).mp hkin
    have hkeys1 : (setEntry { addr := addr, q := q }
        { msg := resp, addedAt := now, ttl := ttl } s.entries).map Prod.fst
        = s.entries.map Prod.fst := by
      rw [keys_setEntry, if_pos hkin]
    refine cacheWF_after_prune _ _ h ?_ ?_ ?_
    · rw [hkeys1]; exact h.keysNodup
    · exact moveToBack_nodup h.lruNodup
    · intro x
      rw [hkeys1, mem_moveToBack_iff h.lruNodup hkinlru x]
      exact h.memIff x
  · have hlru : Cache.updatedLru s { addr := addr, q := q }
        = s.lru ++ [{ addr := addr, q := q }] := by
      unfold Cache.updatedLru
      rw [if_neg hsome]
    rw [hlru]
    have hknotin : ({ addr := addr, q := q } : CacheKey) ∉ s.entries.map Prod.fst := by
      intro hc
      exact hsome ((lookupEntry_isSome_iff _ s.entries).mpr hc)
    have hknotlru : ({ addr := addr, q := q } : CacheKey) ∉ s.lru :=
      fun hc => hknotin ((h.memIff _).mpr hc)
    have hkeys1 : (setEntry { addr := addr, q := q }
        { msg := resp, addedAt := now, ttl := ttl } s.entries).map Prod.fst
        = s.entries.map Prod.fst ++ [{ addr := addr, q := q }] := by
      rw [keys_setEntry, if_neg hknotin]
    refine cacheWF_after_prune _ _ h ?_ ?_ ?_
    · rw [hkeys1]
      simp [List.nodup_append, h.keysNodup, hknotin]
    · simp [List.nodup_append, h.lruNodup, hknotlru]
    · intro x
      rw [hkeys1, List.mem_append, List.mem_append, h.memIff x]

lemma cacheWF_new (α : Type) (maxSize : Int) (hmax : 0 ≤ maxSize) :
    CacheWF (Cache.new α maxSize) := by
  refine ⟨hmax, by simp [Cache.new], by simp [Cache.new], by simp [Cache.new], ?_, rfl⟩
  simpa [Cache.new] using hmax

lemma cacheWF_applyCacheOp {α : Type} {s : CacheState α} (op : CacheOp α) (h : CacheWF s) :
    CacheWF (applyCacheOp s op) := by
  cases op with
  | update q addr resp ttl now => exact cacheWF_update q addr resp ttl now h
  | lookup q addr now => exact cacheWF_lookup q addr now h
  | clear => exact cacheWF_clear h

lemma cacheWF_applyCacheOps {α : Type} (ops : List (CacheOp α)) :
    ∀ (s : CacheState α), CacheWF s → CacheWF (applyCacheOps s ops) := by
  induction ops with
  | nil => intro s h; exact h
  | cons op rest ih =>
      intro s h
      exact ih (applyCacheOp s op) (cacheWF_applyCacheOp op h)

lemma erase_mem_iff {α : Type} {es : List (CacheKey × CacheItem α)} {khd : CacheKey}
    {rest : List CacheKey} (hl : (khd :: rest).Nodup)
    (hm : ∀ x, x ∈ es.map Prod.fst ↔ x ∈ khd :: rest) :
    ∀ x, x ∈ (eraseEntry khd es).map Prod.fst ↔ x ∈ rest := by
  have hknotin : khd ∉ rest := (List.nodup_cons.mp hl).1
  intro x
  rw [keys_eraseEntry, List.mem_filter]
  constructor
  · rintro ⟨hxk, hxne⟩
    rcases List.mem_cons.mp ((hm x).mp hxk) with hx1 | hx2
    · exact absurd hx1 (by simpa using hxne)
    · exact hx2
  · intro hx
    have hxne : x ≠ khd := fun hc => hknotin (hc ▸ hx)
    exact ⟨(hm x).mpr (List.mem_cons_of_mem khd hx), by simpa using hxne⟩

lemma prune_nonempty {α : Type} (maxSize : Int) (hmax : 1 ≤ maxSize) :
    ∀ (lru : List CacheKey) (es : List (CacheKey × CacheItem α)),
      (es.map Prod.fst).Nodup → lru.Nodup →
      (∀ x, x ∈ es.map Prod.fst ↔ x ∈ lru) →
      lru ≠ [] → (Cache.prune maxSize es lru).2.1 ≠ [] := by
  intro lru
  induction lru with
  | nil => intro es _ _ _ hne; exact absurd rfl hne
  | cons khd rest ih =>
      intro es hk hl hm _
      rw [Cache.prune]
      by_cases hcond : (es.length : Int) > maxSize
      · rw [if_pos hcond]
        have hlen : es.length = (khd :: rest).length := by
          have := nodup_length_eq hk hl hm
          rwa [List.length_map] at this
        have hrest : rest ≠ [] := by
          intro hc
          subst hc
          rw [hlen] at hcond
          simp at hcond
          omega
        have hkeys : ((eraseEntry khd es).map Prod.fst).Nodup := by
          rw [keys_eraseEntry]
          exact hk.filter _
        exact ih (eraseEntry khd es) hkeys (List.nodup_cons.mp hl).2 (erase_mem_iff hl hm) hrest
      · rw [if_neg hcond]
        simp

lemma update_pre {α : Type} {s : CacheState α} (h : CacheWF s) (key : CacheKey)
    (item : CacheItem α) :
    ((setEntry key item s.entries).map Prod.fst).Nodup ∧
    (Cache.updatedLru s key).Nodup ∧
    (∀ x, x ∈ (setEntry key item s.entries).map Prod.fst ↔ x ∈ Cache.updatedLru s key) := by
  unfold Cache.updatedLru
  by_cases hsome : (lookupEntry key s.entries).isSome = true
  · rw [if_pos hsome]
    have hkin : key ∈ s.entries.map Prod.fst := (lookupEntry_isSome_iff key s.entries).mp hsome
    have hkinlru : key ∈ s.lru := (h.memIff key).mp hkin
    have hkeys1 : (setEntry key item s.entries).map Prod.fst = s.entries.map Prod.fst := by
      rw [keys_setEntry, if_pos hkin]
    refine ⟨by rw [hkeys1]; exact h.keysNodup, moveToBack_nodup h.lruNodup, ?_⟩
    intro x
    rw [hkeys1, mem_moveToBack_iff h.lruNodup hkinlru x]
    exact h.memIff x
  · rw [if_neg hsome]
    have hknotin : key ∉ s.entries.map Prod.fst := by
      intro hc
      exact hsome ((lookupEntry_isSome_iff key s.entries).mpr hc)
    have hknotlru : key ∉ s.lru := fun hc => hknotin ((h.memIff key).mpr hc)
    have hkeys1 : (setEntry key item s.entries).map Prod.fst
        = s.entries.map Prod.fst ++ [key] := by
      rw [keys_setEntry, if_neg hknotin]
    refine ⟨?_, ?_, ?_⟩
    · rw [hkeys1]
      simp [List.nodup_append, h.keysNodup, hknotin]
    · simp [List.nodup_append, h.lruNodup, hknotlru]
    · intro x
      rw [hkeys1, List.mem_append, List.mem_append, h.memIff x]

lemma updatedLru_concat {α : Type} (s : CacheState α) (key : CacheKey) :
    ∃ l0, Cache.updatedLru s key = l0 ++ [key] := by
  unfold Cache.updatedLru
  by_cases hsome : (lookupEntry key s.entries).isSome = true
  · rw [if_pos hsome]
    exact ⟨s.lru.erase key, rfl⟩
  · rw [if_neg hsome]
    exact ⟨s.lru, rfl⟩

lemma cache_lookup_found {α : Type} {s : CacheState α} {q : Question} {addr : String}
    {ci : CacheItem α} (hl : lookupEntry { addr := addr, q := q } s.entries = some ci)
    (now : Int) (hexp : ¬ (ci.addedAt + ci.ttl < now)) :
    Cache.lookup s q addr now =
      ({ s with lru := moveToBack { addr := addr, q := q } s.lru },
        some ci.msg, 0, now - ci.addedAt) := by
  unfold Cache.lookup
  simp only [hl]
  rw [if_neg hexp]

lemma maxSize_applyCacheOp {α : Type} (s : CacheState α) (op : CacheOp α) :
    (applyCacheOp s op).maxSize = s.maxSize := by
  cases op with
  | update q addr resp ttl now => rfl
  | lookup q addr now =>
      show (Cache.lookup s q addr now).1.maxSize = s.maxSize
      unfold Cache.lookup
      split
      · rfl
      · split
        · rfl
        · rfl
  | clear => rfl

lemma maxSize_applyCacheOps {α : Type} (ops : List (CacheOp α)) :
    ∀ s : CacheState α, (applyCacheOps s ops).maxSize = s.maxSize := by
  induction ops with
  | nil => intro s; rfl
  | cons op rest ih =>
      intro s
      unfold applyCacheOps
      rw [List.foldl_cons]
      have := ih (applyCacheOp s op)
      unfold applyCacheOps at this
      rw [this, maxSize_applyCacheOp]

/-- Claim C5: for every cache created with a nonnegative capacity and
every sequence of Update, Lookup and Clear operations, the mapping holds
at most `maxSize` entries, the mapping and the LRU eviction order have
the same size, and no panic branch (the out-of-sync size check or the
nil-dereference in `prune`) is ever reached. -/
theorem C5_cache_size_invariant (maxSize : Int) (ops : List (CacheOp DnsMsg))
    (hmax : 0 ≤ maxSize) :
    ((applyCacheOps (Cache.new DnsMsg maxSize) ops).entries.length : Int) ≤ maxSize ∧
    (applyCacheOps (Cache.new DnsMsg maxSize) ops).entries.length
      = (applyCacheOps (Cache.new DnsMsg maxSize) ops).lru.length ∧
    (applyCacheOps (Cache.new DnsMsg maxSize) ops).panicked = false := by
  have hwf := cacheWF_applyCacheOps ops (Cache.new DnsMsg maxSize)
    (cacheWF_new DnsMsg maxSize hmax)
  have hms := maxSize_applyCacheOps ops (Cache.new DnsMsg maxSize)
  refine ⟨?_, ?_, hwf.notPanicked⟩
  · have := hwf.sizeLe
    rwa [hms] at this
  · have := nodup_length_eq hwf.keysNodup hwf.lruNodup hwf.memIff
    rwa [List.length_map] at this

/-- Sample question used by the cache witnesses. -/
def qSampleA : Question := { name := "www.example.com.", qtype := TypeA, qclass := ClassINET }

/-- Second sample question used by the cache witnesses. -/
def qSampleB : Question := { name := "example.org.", qtype := TypeA, qclass := ClassINET }

/-- Sample operation sequence for the C5 witness: two inserts into a
capacity-1 cache (forcing an LRU eviction) followed by a lookup. -/
def c5ops : List (CacheOp DnsMsg) :=
  [ CacheOp.update qSampleA "127.0.0.1:53" servfailMsg (5 * second) 0
  , CacheOp.update qSampleB "127.0.0.1:53" servfailMsg (5 * second) 1
  , CacheOp.lookup qSampleB "127.0.0.1:53" 1 ]

/-- Witness for claim C5 at capacity 1 and the concrete operation
sequence `c5ops`. -/
theorem C5_witness :
    (0 : Int) ≤ 1 ∧
    (((applyCacheOps (Cache.new DnsMsg 1) c5ops).entries.length : Int) ≤ 1 ∧
      (applyCacheOps (Cache.new DnsMsg 1) c5ops).entries.length
        = (applyCacheOps (Cache.new DnsMsg 1) c5ops).lru.length ∧
      (applyCacheOps (Cache.new DnsMsg 1) c5ops).panicked = false) :=
  ⟨by decide, C5_cache_size_invariant 1 c5ops (by decide)⟩

/-- Claim C6: on every reachable cache with capacity at least 1, an
`Update(q, addr, r, t)` with positive `t` followed immediately (same
instant `now`) by `Lookup(q, addr)` returns the stored message `r`
(structurally equal, since `Copy` preserves structure) with age 0. -/
theorem C6_update_then_lookup (maxSize : Int) (ops : List (CacheOp DnsMsg))
    (q : Question) (addr : String) (r : DnsMsg) (t now : Int)
    (hmax : 1 ≤ maxSize) (ht : 0 < t) :
    (Cache.lookup
      (Cache.update (applyCacheOps (Cache.new DnsMsg maxSize) ops) q addr r t now)
      q addr now).2 = (some r, 0, 0) := by
  have h0 : (0 : Int) ≤ maxSize := by omega
  have hwf : CacheWF (applyCacheOps (Cache.new DnsMsg maxSize) ops) :=
    cacheWF_applyCacheOps ops (Cache.new DnsMsg maxSize) (cacheWF_new DnsMsg maxSize h0)
  have hms := maxSize_applyCacheOps ops (Cache.new DnsMsg maxSize)
  obtain ⟨hk1, hl1, hm1⟩ := update_pre hwf { addr := addr, q := q }
    { msg := r, addedAt := now, ttl := t }
  obtain ⟨l0, hl0⟩ :=
    updatedLru_concat (applyCacheOps (Cache.new DnsMsg maxSize) ops) { addr := addr, q := q }
  have hne1 : Cache.updatedLru (applyCacheOps (Cache.new DnsMsg maxSize) ops)
      { addr := addr, q := q } ≠ [] := by
    rw [hl0]
    simp
  obtain ⟨_, _, _, _, _, c6, c7⟩ :=
    prune_spec (applyCacheOps (Cache.new DnsMsg maxSize) ops).maxSize hwf.maxNonneg
      (Cache.updatedLru (applyCacheOps (Cache.new DnsMsg maxSize) ops) { addr := addr, q := q })
      (setEntry { addr := addr, q := q } { msg := r, addedAt := now, ttl := t }
        (applyCacheOps (Cache.new DnsMsg maxSize) ops).entries) hk1 hl1 hm1
  have hpn :=
    prune_nonempty (applyCacheOps (Cache.new DnsMsg maxSize) ops).maxSize
      (by rw [hms]; exact hmax)
      (Cache.updatedLru (applyCacheOps (Cache.new DnsMsg maxSize) ops) { addr := addr, q := q })
      (setEntry { addr := addr, q := q } { msg := r, addedAt := now, ttl := t }
        (applyCacheOps (Cache.new DnsMsg maxSize) ops).entries) hk1 hl1 hm1 hne1
  have hkeymem : ({ addr := addr, q := q } : CacheKey) ∈
      (Cache.prune (applyCacheOps (Cache.new DnsMsg maxSize) ops).maxSize
        (setEntry { addr := addr, q := q } { msg := r, addedAt := now, ttl := t }
          (applyCacheOps (Cache.new DnsMsg maxSize) ops).entries)
        (Cache.updatedLru (applyCacheOps (Cache.new DnsMsg maxSize) ops)
          { addr := addr, q := q })).2.1 := by
    apply mem_suffix_last (l := l0)
    · rw [← hl0]
      exact c7
    · exact hpn
  have hlook : lookupEntry { addr := addr, q := q }
      (Cache.update (applyCacheOps (Cache.new DnsMsg maxSize) ops) q addr r t now).entries
      = some { msg := r, addedAt := now, ttl := t } := by
    show lookupEntry { addr := addr, q := q }
      (Cache.prune (applyCacheOps (Cache.new DnsMsg maxSize) ops).maxSize
        (setEntry { addr := addr, q := q } { msg := r, addedAt := now, ttl := t }
          (applyCacheOps (Cache.new DnsMsg maxSize) ops).entries)
        (Cache.updatedLru (applyCacheOps (Cache.new DnsMsg maxSize) ops)
          { addr := addr, q := q })).1 = _
    rw [c6 _ hkeymem, lookupEntry_setEntry_self]
  have hexp : ¬ (({ msg := r, addedAt := now, ttl := t } : CacheItem DnsMsg).addedAt
      + ({ msg := r, addedAt := now, ttl := t } : CacheItem DnsMsg).ttl < now) := by
    simp only
    omega
  rw [cache_lookup_found hlook now hexp]
  simp

/-- Witness for claim C6 at concrete inputs: capacity 1, an empty prior
operation sequence, and a 5-second TTL at time 7. -/
theorem C6_witness :
    (1 : Int) ≤ 1 ∧ (0 : Int) < 5 * second ∧
    (Cache.lookup
      (Cache.update (applyCacheOps (Cache.new DnsMsg 1) []) qSampleA "127.0.0.1:53"
        servfailMsg (5 * second) 7)
      qSampleA "127.0.0.1:53" 7).2 = (some servfailMsg, 0, 0) :=
  ⟨by decide, by decide,
    C6_update_then_lookup 1 [] qSampleA "127.0.0.1:53" servfailMsg (5 * second) 7
      (by decide) (by decide)⟩

/-- The target names collected by `normalize`'s first loop into `mapped`:
each CNAME or NS record maps its target back to its owner; only key
membership is ever consulted. -/
def mappedTargets (all : List RR) : List String :=
  all.filterMap (fun rr =>
    match rr.rdata with
    | RData.cname target => some target
    | RData.ns target => some target
    | _ => none)

/-- The `copyRecord` closure of `normalize`: round-trip the record through
the codec (the identity on values), lower its TTL to `*ttl` when that is
smaller, and replace the owner name when `newName` is nonempty. -/
def copyRecord (rr : RR) (ttlBound : Option Nat) (newName : String) : RR :=
  { rr with
    ttl :=
      match ttlBound with
      | some t => if t < rr.ttl then t else rr.ttl
      | none => rr.ttl
    name := if newName ≠ "" then newName else rr.name }

/-- The record loop inside `findReplacements`: walk the remaining records,
collect those owned by `name`, track the running minimum TTL, thread the
shared `seen` set, and follow CNAME payloads through `fr` (the recursive
call one fuel step down).  Returns (replacements, ttl, seen, cycle). -/
def frLoop (fr : String → Nat → List String → (List RR × Nat × List String × Bool)) :
    List RR → String → List RR → Nat → List String →
      (List RR × Nat × List String × Bool)
  | [], _, rrs, ttl, seen => (rrs, ttl, seen, false)
  | rr :: rest, name, rrs, ttl, seen =>
      if rr.name = name then
        let ttl1 := if rr.ttl < ttl then rr.ttl else ttl
        match rr.rdata with
        | RData.cname target =>
            match fr target ttl1 seen with
            | (xs, newTtl, seen2, cycle) =>
                if cycle then ([], ttl1, seen2, true)
                else frLoop fr rest name (rrs ++ (if 0 < xs.length then xs else [rr])) newTtl seen2
        | _ => frLoop fr rest name (rrs ++ [rr]) ttl1 seen
      else frLoop fr rest name rrs ttl seen

/-- The recursive `findReplacements` closure of `normalize`.  The Go
function terminates because the shared `seen` map grows on every nested
call; the fuel argument bounds that recursion depth and is set by the
caller above the largest depth reachable (one more than the number of
records). -/
def findReplacements (all : List RR) : Nat → String → Nat → List String →
    (List RR × Nat × List String × Bool)
  | 0, _, ttl, seen => ([], ttl, seen, true)
  | Nat.succ fuel, name, ttl, seen =>
      if name ∈ seen then ([], ttl, seen, true)
      else frLoop (findReplacements all fuel) all name [] ttl (name :: seen)

/-- One top-level step of `normalize`'s second loop for a CNAME or NS
record: chase the chain; drop the record on a cycle; copy it unchanged
when no replacement was found; otherwise emit each replacement with the
original owner name and the chain's minimum TTL. -/
def normalizeStep (all : List RR) (xs : List RR) (rr : RR) (target : String) : List RR :=
  match findReplacements all (all.length + 2) target rr.ttl [] with
  | (repl, newTtl, _, cycle) =>
      if cycle then xs
      else if repl.isEmpty then xs ++ [copyRecord rr none ""]
      else xs ++ repl.map (fun rr2 => copyRecord rr2 (some newTtl) rr.name)

/-- The record sequence built by `normalize` before the final `dns.Dedup`
call: top-level records from answer and authority, skipping records that
are themselves CNAME/NS targets, chasing CNAME/NS chains and copying
everything else verbatim. -/
def normalizePre (m : DnsMsg) : List RR :=
  (m.answer ++ m.ns).foldl
    (fun xs rr =>
      if rr.name ∈ mappedTargets (m.answer ++ m.ns ++ m.extra) then xs
      else
        match rr.rdata with
        | RData.ns target => normalizeStep (m.answer ++ m.ns ++ m.extra) xs rr target
        | RData.cname target => normalizeStep (m.answer ++ m.ns ++ m.extra) xs rr target
        | _ => xs ++ [copyRecord rr none ""])
    []

/-- Lower-cased character codes of a name, used for the case-insensitive
owner-name component of the dedup key. -/
def lowerName (s : String) : List Nat :=
  s.data.map (fun c => if 65 ≤ c.toNat ∧ c.toNat ≤ 90 then c.toNat + 32 else c.toNat)

/-- The comparison key of miekg/dns `normalizedString`: the record's
presentation with the owner name lowercased and the TTL removed. -/
def dedupKey (rr : RR) : List Nat × Nat × Nat × String :=
  (lowerName rr.name, rr.rrtype, rr.rrclass, rrValue rr)

/-- Minimum TTL over all records of `xs` sharing `key`, starting from
`dflt` ("shortest TTL wins" in miekg/dns `Dedup`). -/
def groupMinTtl (xs : List RR) (key : List Nat × Nat × Nat × String) (dflt : Nat) : Nat :=
  xs.foldl (fun acc rr => if dedupKey rr = key then min acc rr.ttl else acc) dflt

/-- First pass of miekg/dns `Dedup` as it acts on the array: the first
record of every key group receives the group's minimum TTL (the kept
record is mutated in place); later duplicates are untouched. -/
def dedupPhase1 (xs : List RR) : List RR :=
  xs.enum.map (fun p =>
    if (xs.take p.1).any (fun rr2 => dedupKey rr2 = dedupKey p.2) then p.2
    else { p.2 with ttl := groupMinTtl xs (dedupKey p.2) p.2.ttl })

/-- The first occurrences of each key, in order (the records `Dedup`'s
compaction pass moves to the front of the array). -/
def firstOccsBy (seen : List (List Nat × Nat × Nat × String)) : List RR → List RR
  | [] => []
  | rr :: rest =>
      if dedupKey rr ∈ seen then firstOccsBy seen rest
      else rr :: firstOccsBy (dedupKey rr :: seen) rest

/-- State of the caller's slice after `dns.Dedup(xs, nil)` whose return
value is DISCARDED, as `normalize` does: with all keys distinct the array
is untouched; otherwise the unique records (with minimized TTLs) occupy
the front positions and the tail keeps its old contents, so the
full-length slice that `normalize` returns still holds duplicates. -/
def dnsDedupArray (xs : List RR) : List RR :=
  if (xs.map dedupKey).dedup.length = xs.length then xs
  else
    let xs1 := dedupPhase1 xs
    let fo := firstOccsBy [] xs1
    fo ++ xs1.drop fo.length

/-- The `normalize` function of the wire helpers: build the replacement
list and run `dns.Dedup` on it, ignoring the shortened slice that `Dedup`
returns. -/
def normalize (m : DnsMsg) : List RR :=
  dnsDedupArray (normalizePre m)

/-- An A record used in the C4 failing input. -/
def rrA : RR :=
  { name := "www.example.com.", rrtype := TypeA, rrclass := ClassINET, ttl := 300
  , rdata := RData.a "192.0.2.0" }

/-- The C4 failing input: a response whose answer section carries the same
A record twice. -/
def dupMsg : DnsMsg :=
  { rcode := RcodeSuccess, authoritative := true
  , answer := [rrA, rrA], ns := [], extra := [] }

/-- Claim C4 (code bug): `normalize` of a response holding the same A
record twice returns both copies — its output is not duplicate-free,
although `normalize`'s own documentation promises "duplicate records are
removed".  The cause: `dns.Dedup(xs, nil)` compacts the array and returns
the shortened slice, but `normalize` discards that return value and
returns the full-length `xs`. -/
theorem C4_code_bug :
    normalize dupMsg = [rrA, rrA] ∧ ¬ (normalize dupMsg).Nodup := by
  constructor
  · decide
  · decide

/-- The `valueSet` struct of the record index: the values of all records
with one (name, type) key together with their smallest TTL. -/
structure ValueSet where
  values : List String
  ttl : Int
deriving DecidableEq, Repr

/-- The `recordIndex` nested map name → rtype → valueSet, flattened to an
association list keyed by (name, rtype); only point lookups are ever
performed on it. -/
abbrev RecordIndex : Type := List ((String × Nat) × ValueSet)

/-- Point lookup `idx[name][typ]` (returns the Go nil pointer as none). -/
def idxFind (key : String × Nat) (idx : RecordIndex) : Option ValueSet :=
  (idx.find? (fun e => e.1 == key)).map (fun e => e.2)

/-- Map write used while building the index. -/
def idxSet (key : String × Nat) (v : ValueSet) (idx : RecordIndex) : RecordIndex :=
  idx.map (fun e => if e.1 == key then (key, v) else e)

/-- The owner names present in the index. -/
def idxNames (idx : RecordIndex) : List String :=
  idx.map (fun e => e.1.1)

/-- `indexResponse`: fold answer ++ additional into the nested map,
appending values in record order and keeping the minimum TTL per key. -/
def indexResponse (resp : DnsMsg) : RecordIndex :=
  (resp.answer ++ resp.extra).foldl
    (fun idx rr =>
      let key := (rr.name, rr.rrtype)
      let ttl : Int := (rr.ttl : Int) * second
      match idxFind key idx with
      | none => idx ++ [(key, { values := [rrValue rr], ttl := ttl })]
      | some s =>
          idxSet key
            { values := s.values ++ [rrValue rr]
            , ttl := if ttl < s.ttl then ttl else s.ttl } idx)
    []

/-- The `minTTL` helper of the record index: seed the running minimum from
the first set, lower it when a later set is smaller. -/
def minTTLv (ttlO : Option Int) (set : ValueSet) : Int :=
  match ttlO with
  | none => set.ttl
  | some t => if set.ttl < t then set.ttl else t

/-- The two error sentinels `search` can produce (`ErrCircular` and
`ErrNXDomain`); both are returned unwrapped, so `errors.Is` against the
sentinel holds by definition. -/
inductive SearchErr where
  | circular
  | nxdomain
deriving DecidableEq, Repr

lemma filter_imp_length_le (l : List String) (p q : String → Bool)
    (himp : ∀ x, q x = true → p x = true) :
    (l.filter q).length ≤ (l.filter p).length := by
  induction l with
  | nil => exact Nat.le_refl 0
  | cons a t ih =>
      rw [List.filter_cons, List.filter_cons]
      cases hq : q a with
      | true =>
          rw [himp a hq]
          simpa using ih
      | false =>
          cases hp : p a with
          | true =>
              simp only [if_pos rfl, List.length_cons, if_neg (by simp : ¬ (false = true))]
              exact Nat.le_succ_of_le ih
          | false =>
              simpa using ih

lemma filter_notSeen_lt (l : List String) (seen : List String) (name : String)
    (hmem : name ∈ l) (hns : name ∉ seen) :
    (l.filter (fun n => decide (n ∉ name :: seen))).length <
      (l.filter (fun n => decide (n ∉ seen))).length := by
  induction l with
  | nil => simp at hmem
  | cons a t ih =>
      rw [List.filter_cons, List.filter_cons]
      by_cases han : a = name
      · subst han
        rw [show (decide (a ∉ a :: seen)) = false from by simp]
        rw [show (decide (a ∉ seen)) = true from by simpa using hns]
        simp only [if_neg (by simp : ¬ (false = true)), if_pos rfl, List.length_cons]
        have hle := filter_imp_length_le t
          (fun n => decide (n ∉ seen)) (fun n => decide (n ∉ a :: seen))
          (fun x hx => by
            simp only [decide_eq_true_eq] at hx ⊢
            intro hcon
            exact hx (List.mem_cons_of_mem a hcon))
        exact Nat.lt_succ_of_le hle
      · have hdec : (decide (a ∉ name :: seen)) = (decide (a ∉ seen)) :=
          decide_eq_decide.mpr (by simp [List.mem_cons, han])
        rw [hdec]
        have hmem2 : name ∈ t := by
          rcases List.mem_cons.mp hmem with h1 | h2
          · exact absurd h1.symm han
          · exact h2
        cases hd : (decide (a ∉ seen)) with
        | true =>
            simp only [if_pos rfl, List.length_cons]
            exact Nat.succ_lt_succ (ih hmem2)
        | false =>
            simp only [if_neg (by simp : ¬ (false = true))]
            exact ih hmem2

lemma name_mem_idxNames_of_find {idx : RecordIndex} {name : String} {t : Nat} {v : ValueSet}
    (h : idxFind (name, t) idx = some v) : name ∈ idxNames idx := by
  unfold idxFind at h
  cases hf : idx.find? (fun e => e.1 == (name, t)) with
  | none => rw [hf] at h; simp at h
  | some e =>
      have he : e ∈ idx := List.mem_of_find?_eq_some hf
      have hkey : e.1 = (name, t) := by
        have := List.find?_some hf
        simpa using this
      unfold idxNames
      exact List.mem_map.mpr ⟨e, he, by rw [hkey]⟩

/-- Measure for the `search` recursion: the names of the index not yet in
the seen set, plus one extra step for the initial call with a nil seen
map. -/
def searchMeasure (idx : RecordIndex) : Option (List String) → Nat
  | none => ((idxNames idx).filter (fun n => decide (n ∉ ([] : List String)))).length + 1
  | some seen => ((idxNames idx).filter (fun n => decide (n ∉ seen))).length

/-- The `recordIndex.search` method.  On entry a nil seen map is replaced
by a fresh empty one WITHOUT marking the initial name (the Go code only
marks `name` in the non-nil branch); a visited name fails with the
Circular sentinel; an exact (name, typ) hit returns its values with the
running minimum TTL; otherwise the single CNAME link is followed,
recursing with the minimum carried along, and its absence is an NXDomain
failure.  Go's `cname.values[0]` is total because every set is built with
at least one value. -/
def search (idx : RecordIndex) (typ : Nat) :
    String → Option Int → Option (List String) → Except SearchErr ValueSet
  | name, ttlO, none =>
      match idxFind (name, typ) idx with
      | some set => Except.ok { values := set.values, ttl := minTTLv ttlO set }
      | none =>
          if typ = TypeCNAME then Except.error SearchErr.nxdomain
          else
            match hfind : idxFind (name, TypeCNAME) idx with
            | none => Except.error SearchErr.nxdomain
            | some cname =>
                search idx typ (cname.values.headD "") (some (minTTLv ttlO cname))
                  (some ([] : List String))
  | name, ttlO, some seen =>
      if hns : name ∈ seen then Except.error SearchErr.circular
      else
        match idxFind (name, typ) idx with
        | some set => Except.ok { values := set.values, ttl := minTTLv ttlO set }
        | none =>
            if typ = TypeCNAME then Except.error SearchErr.nxdomain
            else
              match hfind : idxFind (name, TypeCNAME) idx with
              | none => Except.error SearchErr.nxdomain
              | some cname =>
                  search idx typ (cname.values.headD "") (some (minTTLv ttlO cname))
                    (some (name :: seen))
termination_by name ttlO seenO => searchMeasure idx seenO
decreasing_by
  · simp only [searchMeasure]
    exact Nat.lt_succ_of_le (Nat.le_refl _)
  · simp only [searchMeasure]
    exact filter_notSeen_lt (idxNames idx) seen name
      (name_mem_idxNames_of_find hfind) hns

/-- Reference search following the words of the specification: every
visited name — the initial one included — is added to the visited set on
entry; a revisit fails with Circular; the set of values for exactly
(name, rtype) is returned if present, with the running minimum TTL over
the CNAME chain and the terminal set; otherwise the single CNAME link is
followed and the search recurses; if no match and no CNAME exists the
search fails with NXDomain. -/
def searchSpec (idx : RecordIndex) (typ : Nat) :
    String → Option Int → List String → Except SearchErr ValueSet
  | name, ttlO, seen =>
      if hns : name ∈ seen then Except.error SearchErr.circular
      else
        match idxFind (name, typ) idx with
        | some set => Except.ok { values := set.values, ttl := minTTLv ttlO set }
        | none =>
            match hfind : idxFind (name, TypeCNAME) idx with
            | none => Except.error SearchErr.nxdomain
            | some cname =>
                searchSpec idx typ (cname.values.headD "") (some (minTTLv ttlO cname))
                  (name :: seen)
termination_by name ttlO seen => ((idxNames idx).filter (fun n => decide (n ∉ seen))).length
decreasing_by
  exact filter_notSeen_lt (idxNames idx) seen name (name_mem_idxNames_of_find hfind) hns

lemma searchSpec_circ {idx : RecordIndex} {typ : Nat} {name : String} {ttlO : Option Int}
    {seen : List String} (h : name ∈ seen) :
    searchSpec idx typ name ttlO seen = Except.error SearchErr.circular := by
  rw [searchSpec.eq_def]
  simp only []
  rw [dif_pos h]

lemma searchSpec_ok {idx : RecordIndex} {typ : Nat} {name : String} {ttlO : Option Int}
    {seen : List String} {set : ValueSet} (h : ¬ name ∈ seen)
    (hex : idxFind (name, typ) idx = some set) :
    searchSpec idx typ name ttlO seen
      = Except.ok { values := set.values, ttl := minTTLv ttlO set } := by
  rw [searchSpec.eq_def]
  simp only []
  rw [dif_neg h]
  simp only [hex]

lemma searchSpec_nx {idx : RecordIndex} {typ : Nat} {name : String} {ttlO : Option Int}
    {seen : List String} (h : ¬ name ∈ seen) (hex : idxFind (name, typ) idx = none)
    (hcn : idxFind (name, TypeCNAME) idx = none) :
    searchSpec idx typ name ttlO seen = Except.error SearchErr.nxdomain := by
  rw [searchSpec.eq_def]
  simp only []
  rw [dif_neg h]
  simp only [hex]
  split
  · rfl
  · rename_i cname heq
    rw [hcn] at heq
    exact absurd heq (by simp)

lemma searchSpec_rec {idx : RecordIndex} {typ : Nat} {name : String} {ttlO : Option Int}
    {seen : List String} {cname : ValueSet} (h : ¬ name ∈ seen)
    (hex : idxFind (name, typ) idx = none)
    (hcn : idxFind (name, TypeCNAME) idx = some cname) :
    searchSpec idx typ name ttlO seen
      = searchSpec idx typ (cname.values.headD "") (some (minTTLv ttlO cname))
          (name :: seen) := by
  rw [searchSpec.eq_def]
  simp only []
  rw [dif_neg h]
  simp only [hex]
  split
  · rename_i heq
    rw [hcn] at heq
    exact absurd heq (by simp)
  · rename_i cname2 heq
    rw [hcn] at heq
    have : cname2 = cname := by
      injection heq with h2
      exact h2.symm
    rw [this]

lemma search_some_circ {idx : RecordIndex} {typ : Nat} {name : String} {ttlO : Option Int}
    {seen : List String} (h : name ∈ seen) :
    search idx typ name ttlO (some seen) = Except.error SearchErr.circular := by
  rw [search.eq_def]
  simp only []
  rw [dif_pos h]

lemma search_some_ok {idx : RecordIndex} {typ : Nat} {name : String} {ttlO : Option Int}
    {seen : List String} {set : ValueSet} (h : ¬ name ∈ seen)
    (hex : idxFind (name, typ) idx = some set) :
    search idx typ name ttlO (some seen)
      = Except.ok { values := set.values, ttl := minTTLv ttlO set } := by
  rw [search.eq_def]
  simp only []
  rw [dif_neg h]
  simp only [hex]

lemma search_some_nxCname {idx : RecordIndex} {typ : Nat} {name : String} {ttlO : Option Int}
    {seen : List String} (h : ¬ name ∈ seen) (hex : idxFind (name, typ) idx = none)
    (htyp : typ = TypeCNAME) :
    search idx typ name ttlO (some seen) = Except.error SearchErr.nxdomain := by
  rw [search.eq_def]
  simp only []
  rw [dif_neg h]
  simp only [hex]
  rw [if_pos htyp]

lemma search_some_nx {idx : RecordIndex} {typ : Nat} {name : String} {ttlO : Option Int}
    {seen : List String} (h : ¬ name ∈ seen) (hex : idxFind (name, typ) idx = none)
    (htyp : ¬ typ = TypeCNAME) (hcn : idxFind (name, TypeCNAME) idx = none) :
    search idx typ name ttlO (some seen) = Except.error SearchErr.nxdomain := by
  rw [search.eq_def]
  simp only []
  rw [dif_neg h]
  simp only [hex]
  rw [if_neg htyp]
  split
  · rfl
  · rename_i cname heq
    rw [hcn] at heq
    exact absurd heq (by simp)

lemma search_some_rec {idx : RecordIndex} {typ : Nat} {name : String} {ttlO : Option Int}
    {seen : List String} {cname : ValueSet} (h : ¬ name ∈ seen)
    (hex : idxFind (name, typ) idx = none) (htyp : ¬ typ = TypeCNAME)
    (hcn : idxFind (name, TypeCNAME) idx = some cname) :
    search idx typ name ttlO (some seen)
      = search idx typ (cname.values.headD "") (some (minTTLv ttlO cname))
          (some (name :: seen)) := by
  rw [search.eq_def]
  simp only []
  rw [dif_neg h]
  simp only [hex]
  rw [if_neg htyp]
  split
  · rename_i heq
    rw [hcn] at heq
    exact absurd heq (by simp)
  · rename_i cname2 heq
    rw [hcn] at heq
    have : cname2 = cname := by
      injection heq with h2
      exact h2.symm
    rw [this]

lemma search_none_ok {idx : RecordIndex} {typ : Nat} {name : String} {ttlO : Option Int}
    {set : ValueSet} (hex : idxFind (name, typ) idx = some set) :
    search idx typ name ttlO none
      = Except.ok { values := set.values, ttl := minTTLv ttlO set } := by
  rw [search.eq_def]
  simp only [hex]

lemma search_none_nxCname {idx : RecordIndex} {typ : Nat} {name : String} {ttlO : Option Int}
    (hex : idxFind (name, typ) idx = none) (htyp : typ = TypeCNAME) :
    search idx typ name ttlO none = Except.error SearchErr.nxdomain := by
  rw [search.eq_def]
  simp only [hex]
  rw [if_pos htyp]

lemma search_none_nx {idx : RecordIndex} {typ : Nat} {name : String} {ttlO : Option Int}
    (hex : idxFind (name, typ) idx = none) (htyp : ¬ typ = TypeCNAME)
    (hcn : idxFind (name, TypeCNAME) idx = none) :
    search idx typ name ttlO none = Except.error SearchErr.nxdomain := by
  rw [search.eq_def]
  simp only [hex]
  rw [if_neg htyp]
  split
  · rfl
  · rename_i cname heq
    rw [hcn] at heq
    exact absurd heq (by simp)

lemma search_none_rec {idx : RecordIndex} {typ : Nat} {name : String} {ttlO : Option Int}
    {cname : ValueSet} (hex : idxFind (name, typ) idx = none) (htyp : ¬ typ = TypeCNAME)
    (hcn : idxFind (name, TypeCNAME) idx = some cname) :
    search idx typ name ttlO none
      = search idx typ (cname.values.headD "") (some (minTTLv ttlO cname))
          (some ([] : List String)) := by
  rw [search.eq_def]
  simp only [hex]
  rw [if_neg htyp]
  split
  · rename_i heq
    rw [hcn] at heq
    exact absurd heq (by simp)
  · rename_i cname2 heq
    rw [hcn] at heq
    have : cname2 = cname := by
      injection heq with h2
      exact h2.symm
    rw [this]

lemma search_some_eq_spec (idx : RecordIndex) (typ : Nat) :
    ∀ (k : Nat) (name : String) (ttlO : Option Int) (seen : List String),
      ((idxNames idx).filter (fun n => decide (n ∉ seen))).length = k →
      search idx typ name ttlO (some seen) = searchSpec idx typ name ttlO seen := by
  intro k
  induction k using Nat.strong_induction_on with
  | _ k ih =>
      intro name ttlO seen hk
      by_cases hmem : name ∈ seen
      · rw [search_some_circ hmem, searchSpec_circ hmem]
      · cases hex : idxFind (name, typ) idx with
        | some set => rw [search_some_ok hmem hex, searchSpec_ok hmem hex]
        | none =>
            by_cases htyp : typ = TypeCNAME
            · have hcn : idxFind (name, TypeCNAME) idx = none := htyp ▸ hex
              rw [search_some_nxCname hmem hex htyp, searchSpec_nx hmem hex hcn]
            · cases hcn : idxFind (name, TypeCNAME) idx with
              | none => rw [search_some_nx hmem hex htyp hcn, searchSpec_nx hmem hex hcn]
              | some cname =>
                  rw [search_some_rec hmem hex htyp hcn, searchSpec_rec hmem hex hcn]
                  exact ih _ (hk ▸ filter_notSeen_lt (idxNames idx) seen name
                      (name_mem_idxNames_of_find hcn) hmem)
                    (cname.values.headD "") (some (minTTLv ttlO cname)) (name :: seen) rfl

lemma searchSpec_skip_initial (idx : RecordIndex) (typ : Nat) (nameI : String)
    (cnameI : ValueSet) (hexI : idxFind (nameI, typ) idx = none)
    (hcnI : idxFind (nameI, TypeCNAME) idx = some cnameI) :
    ∀ (k : Nat) (cur : String) (ttlO : Option Int) (seenA seenB : List String),
      ((idxNames idx).filter (fun n => decide (n ∉ seenA))).length = k →
      (∀ x, x ∈ seenB ↔ x = nameI ∨ x ∈ seenA) →
      nameI ∉ seenA →
      (cnameI.values.headD "" ∈ seenA ∨ cur = cnameI.values.headD "") →
      searchSpec idx typ cur ttlO seenA = searchSpec idx typ cur ttlO seenB := by
  intro k
  induction k using Nat.strong_induction_on with
  | _ k ih =>
      intro cur ttlO seenA seenB hk hequiv hnI htgt
      by_cases hcurA : cur ∈ seenA
      · rw [searchSpec_circ hcurA, searchSpec_circ ((hequiv cur).mpr (Or.inr hcurA))]
      · by_cases hcurN : cur = nameI
        · rw [searchSpec_circ ((hequiv cur).mpr (Or.inl hcurN))]
          subst hcurN
          rw [searchSpec_rec hcurA hexI hcnI]
          have hmem2 : cnameI.values.headD "" ∈ cur :: seenA := by
            rcases htgt with h1 | h2
            · exact List.mem_cons_of_mem cur h1
            · rw [← h2]
              exact List.mem_cons_self cur seenA
          rw [searchSpec_circ hmem2]
        · have hcurB : ¬ cur ∈ seenB := fun hc => by
            rcases (hequiv cur).mp hc with h1 | h2
            · exact hcurN h1
            · exact hcurA h2
          cases hex : idxFind (cur, typ) idx with
          | some set => rw [searchSpec_ok hcurA hex, searchSpec_ok hcurB hex]
          | none =>
              cases hcn : idxFind (cur, TypeCNAME) idx with
              | none => rw [searchSpec_nx hcurA hex hcn, searchSpec_nx hcurB hex hcn]
              | some cname =>
                  rw [searchSpec_rec hcurA hex hcn, searchSpec_rec hcurB hex hcn]
                  refine ih _ (hk ▸ filter_notSeen_lt (idxNames idx) seenA cur
                      (name_mem_idxNames_of_find hcn) hcurA)
                    (cname.values.headD "") (some (minTTLv ttlO cname))
                    (cur :: seenA) (cur :: seenB) rfl ?_ ?_ ?_
                  · intro x
                    simp only [List.mem_cons, hequiv x]
                    constructor
                    · rintro (h1 | h2 | h3)
                      · exact Or.inr (Or.inl h1)
                      · exact Or.inl h2
                      · exact Or.inr (Or.inr h3)
                    · rintro (h1 | h2 | h3)
                      · exact Or.inr (Or.inl h1)
                      · exact Or.inl h2
                      · exact Or.inr (Or.inr h3)
                  · intro hc
                    rcases List.mem_cons.mp hc with h1 | h2
                    · exact hcurN h1.symm
                    · exact hnI h2
                  · rcases htgt with h1 | h2
                    · exact Or.inl (List.mem_cons_of_mem cur h1)
                    · exact Or.inl (h2 ▸ List.mem_cons_self cur seenA)

lemma search_none_eq_spec (idx : RecordIndex) (typ : Nat) (name : String)
    (ttlO : Option Int) :
    search idx typ name ttlO none = searchSpec idx typ name ttlO [] := by
  have hnil : ¬ name ∈ ([] : List String) := by simp
  cases hex : idxFind (name, typ) idx with
  | some set => rw [search_none_ok hex, searchSpec_ok hnil hex]
  | none =>
      by_cases htyp : typ = TypeCNAME
      · have hcn : idxFind (name, TypeCNAME) idx = none := htyp ▸ hex
        rw [search_none_nxCname hex htyp, searchSpec_nx hnil hex hcn]
      · cases hcn : idxFind (name, TypeCNAME) idx with
        | none => rw [search_none_nx hex htyp hcn, searchSpec_nx hnil hex hcn]
        | some cname =>
            rw [search_none_rec hex htyp hcn, searchSpec_rec hnil hex hcn]
            rw [search_some_eq_spec idx typ _ (cname.values.headD "")
              (some (minTTLv ttlO cname)) [] rfl]
            exact searchSpec_skip_initial idx typ name cname hex hcn _
              (cname.values.headD "") (some (minTTLv ttlO cname)) [] [name] rfl
              (fun x => by simp) (by simp) (Or.inr rfl)

/-- Claim C7: for every record index built from a response and every
search for (name, rtype), the `search` method behaves exactly as the
specification's reference search `searchSpec`: a CNAME chain that
revisits an already-visited name fails with the Circular sentinel
(`errors.Is(err, ErrCircular)` holds as the sentinel is returned
unwrapped); a name with neither an exact (name, rtype) entry nor a CNAME
entry to follow fails with the NXDomain sentinel; otherwise the value set
of the first exact match is returned with TTL the running minimum over
the CNAME chain and the terminal set. -/
theorem C7_search_matches_spec (resp : DnsMsg) (typ : Nat) (name : String) :
    search (indexResponse resp) typ name none none
      = searchSpec (indexResponse resp) typ name none [] :=
  search_none_eq_spec (indexResponse resp) typ name none

/-- Address family of a parsed IP, distinguishing `ip.To4() != nil`. -/
inductive IPFamily where
  | v4
  | v6
deriving DecidableEq, Repr

/-- A server address string as the engine handles it: `host:port` when
`net.SplitHostPort` succeeds, a bare host (`port = none`) when it fails.
`net.JoinHostPort` corresponds to filling in the port. -/
structure Addr where
  host : String
  port : Option String
deriving DecidableEq, Repr

/-- The `ip:port` string of an address, used as the cache key. -/
def addrToString (a : Addr) : String :=
  a.host ++ ":" ++ a.port.getD ""

/-- Transport-level error classes from `dns.Client.ExchangeContext` that
the engine distinguishes with `errors.Is`. -/
inductive NetErr where
  | canceled
  | deadlineExceeded
  | enetunreach
  | other (text : String)
deriving DecidableEq, Repr

/-- Result of one wire exchange: the response (nil on failure), the
measured RTT, and the error. -/
structure ExchangeResult where
  resp : Option DnsMsg
  rtt : Int
  err : Option NetErr
deriving Repr

/-- The errors `doQuery` can produce: the Circular sentinel from the
repeated-query guard, the malformed-address errors, the disabled-family
errors, and wrapped network errors. -/
inductive DoQueryErr where
  | circular
  | badAddr
  | ipv4Disabled
  | ipv6Disabled
  | net (e : NetErr)
deriving DecidableEq, Repr

/-- `isTerminal(resp, err)` from the current resolver: true exactly when
the error unwraps to ErrCircular, context.Canceled or
context.DeadlineExceeded. -/
def isTerminal : Option DoQueryErr → Bool
  | some DoQueryErr.circular => true
  | some (DoQueryErr.net NetErr.canceled) => true
  | some (DoQueryErr.net NetErr.deadlineExceeded) => true
  | _ => false

/-- One trace node as the claims need it: the question and server of the
issued query, the error recorded on the node, and the cache age.  The Go
`TraceNode` additionally carries the message, RTT and children; the tree
shape (push/pop) does not affect which (question, server) pairs exist in
the trace, so nodes are kept in a flat list in insertion order. -/
structure TNode where
  q : Question
  server : Addr
  err : Option DoQueryErr
  age : Int
deriving DecidableEq, Repr

/-- Modelled from the spec: `Trace.contains(q, addr)` is not part of the
sources (only its callers in `doQuery` are); the spec says doQuery must
"consult the trace for an identical (question, endpoint) previously
issued in this walk", so it is membership of the (question, server) pair
among the already-recorded trace nodes. -/
def traceContains (trace : List TNode) (q : Question) (addr : Addr) : Bool :=
  trace.any (fun n => n.q == q && n.server == addr)

/-- Lower-case a character code (ASCII), for `strings.ToLower` on domain
names; non-letter codes are unchanged. -/
def lowerChar (c : Char) : Char :=
  if 65 ≤ c.toNat ∧ c.toNat ≤ 90 then Char.ofNat (c.toNat + 32) else c

/-- Whether a name already carries the trailing dot (`dns.IsFqdn`). -/
def hasTrailingDot (s : String) : Bool :=
  s.data.getLast? == some '.'

/-- `dns.CanonicalName`: lower-case and ensure the trailing dot. -/
def canonicalName (s : String) : String :=
  let t := String.mk (s.data.map lowerChar)
  if hasTrailingDot t then t else String.mk (t.data ++ ['.'])

/-- The fragment of `dns.StringToType` the embedding needs; `none` marks
an unsupported record type string. -/
def stringToType (s : String) : Option Nat :=
  if s = "A" then some TypeA
  else if s = "AAAA" then some TypeAAAA
  else if s = "NS" then some TypeNS
  else if s = "CNAME" then some TypeCNAME
  else if s = "SOA" then some TypeSOA
  else none

/-- The fragment of `dns.TypeToString` the embedding needs. -/
def typeToString (t : Nat) : String :=
  if t = TypeA then "A"
  else if t = TypeAAAA then "AAAA"
  else if t = TypeNS then "NS"
  else if t = TypeCNAME then "CNAME"
  else if t = TypeSOA then "SOA"
  else "TYPE"

/-- The zero `dns.Msg`. -/
def emptyDnsMsg : DnsMsg :=
  { rcode := 0, authoritative := false, question := [], answer := [], ns := [], extra := [] }

/-- The zero `RecordSet`. -/
def emptyRecordSet : RecordSet :=
  { raw := emptyDnsMsg, name := "", type := "", ttl := 0, values := []
  , serverAddr := "", age := 0, rtt := 0 }

/-- `(*RecordSet).fromResponse`: store the raw response, server address,
RTT and age, then collect the values and minimum TTL of the normalized
records — skipping records whose owner differs from the response's
question name unless `ignoreName` is set. -/
def fromResponse (rs : RecordSet) (resp : DnsMsg) (addrStr : String)
    (rtt age : Int) (ignoreName : Bool) : RecordSet :=
  let rs1 := { rs with raw := resp, serverAddr := addrStr, rtt := rtt, age := age }
  let qname := (rs1.raw.question.headD { name := "", qtype := 0, qclass := 0 }).name
  (((normalize resp).foldl
    (fun acc rr =>
      if ¬ignoreName ∧ rr.name ≠ qname then acc
      else
        let ttl : Int := (rr.ttl : Int) * second
        let r2 := if acc.2 ∨ ttl < acc.1.ttl then { acc.1 with ttl := ttl } else acc.1
        ({ r2 with values := r2.values ++ [rrValue rr] }, false))
    (rs1, true))).1

/-- Static configuration of one resolver walk: the default port, the
external `net.ParseIP` collaborator, the wire exchange as an oracle (pure
per (question, address) — within one Query the repeated-query guard lets
each pair reach the wire at most once), the CachePolicy snapshot, and the
time instant of the walk (a walk is modelled as instantaneous; the
TimeoutPolicy only bounds the blocking time of an exchange and has no
effect on values, so it is elided). -/
structure WalkConfig where
  defaultPort : String
  parseIP : String → Option IPFamily
  exchange : Question → Addr → ExchangeResult
  cachePolicy : RecordSet → Int
  now : Int

/-- Mutable state threaded through one Query call: the two family-disable
flags (flipped by ENETUNREACH), the shared response cache, and the trace. -/
structure WalkState where
  ip4disabled : Bool
  ip6disabled : Bool
  cache : CacheState DnsMsg
  trace : List TNode

def mkNode (q : Question) (addr : Addr) (err : Option DoQueryErr) (age : Int) : TNode :=
  { q := q, server := addr, err := err, age := age }

/-- `(*resolver).doQuery`: refuse a repeated (question, address) pair with
the Circular sentinel, validate the `ip:port` shape and the enabled
families, consult the cache, exchange on a miss, apply the cache policy to
a preview record set and update the cache when it returns a positive TTL,
and record a trace node.  Returns (response, rtt, age, error, state). -/
def doQuery (cfg : WalkConfig) (st : WalkState) (q : Question) (addr : Addr) :
    Option DnsMsg × Int × Int × Option DoQueryErr × WalkState :=
  if traceContains st.trace q addr then
    (none, 0, -1 * second, some DoQueryErr.circular,
      { st with trace := st.trace ++ [mkNode q addr (some DoQueryErr.circular) 0] })
  else if addr.port.isNone then
    (none, 0, -1 * second, some DoQueryErr.badAddr,
      { st with trace := st.trace ++ [mkNode q addr (some DoQueryErr.badAddr) 0] })
  else
    match cfg.parseIP addr.host with
    | none =>
        (none, 0, -1 * second, some DoQueryErr.badAddr,
          { st with trace := st.trace ++ [mkNode q addr (some DoQueryErr.badAddr) 0] })
    | some fam =>
        if fam = IPFamily.v4 ∧ st.ip4disabled then
          (none, 0, -1 * second, some DoQueryErr.ipv4Disabled,
            { st with trace := st.trace ++ [mkNode q addr (some DoQueryErr.ipv4Disabled) 0] })
        else if fam ≠ IPFamily.v4 ∧ st.ip6disabled then
          (none, 0, -1 * second, some DoQueryErr.ipv6Disabled,
            { st with trace := st.trace ++ [mkNode q addr (some DoQueryErr.ipv6Disabled) 0] })
        else
          let lk := Cache.lookup st.cache q (addrToString addr) cfg.now
          let exch : Option DnsMsg × Int × Option NetErr :=
            match lk.2.1 with
            | some m => (some m, lk.2.2.1, none)
            | none =>
                let r := cfg.exchange q addr
                (r.resp, r.rtt, r.err)
          let age0 : Int := match lk.2.1 with | some _ => lk.2.2.2 | none => -1 * second
          let upd : Int × CacheState DnsMsg :=
            match exch.1 with
            | none => (age0, lk.1)
            | some m =>
                if age0 < 0 then
                  let preview := fromResponse
                    { emptyRecordSet with
                        name := trimTrailingDot q.name
                        type := typeToString q.qtype }
                    m (addrToString addr) exch.2.1 age0 true
                  if cfg.cachePolicy preview > 0 then
                    (0, Cache.update lk.1 q (addrToString addr) m (cfg.cachePolicy preview) cfg.now)
                  else (age0, lk.1)
                else (age0, lk.1)
          (exch.1, exch.2.1, upd.1, (exch.2.2).map DoQueryErr.net,
            { st with
                cache := upd.2
                trace := st.trace ++
                  [mkNode q addr ((exch.2.2).map DoQueryErr.net) upd.1] })

/-- `(*resolver).referrals`: from the normalized records, collect A/AAAA
addresses (subject to the family-disable flags) as endpoints and NS/CNAME
targets as names. -/
def referrals (ip4d ip6d : Bool) (m : DnsMsg) : List Addr × List String :=
  (normalize m).foldl
    (fun acc rr =>
      match rr.rdata with
      | RData.a ip => if ip4d then acc else (acc.1 ++ [{ host := ip, port := none }], acc.2)
      | RData.aaaa ip => if ip6d then acc else (acc.1 ++ [{ host := ip, port := none }], acc.2)
      | RData.ns target => (acc.1, acc.2 ++ [target])
      | RData.cname target => (acc.1, acc.2 ++ [target])
      | RData.other _ => acc)
    ([], [])

/-- A walk stack frame (`stackFrame`): the question asked at this level,
the alternate server names to fall back to, and the candidate endpoints
still to try. -/
structure StackFrame where
  q : Question
  altNames : List String
  addrs : List Addr
deriving DecidableEq, Repr

/-- Errors remembered across the root-discovery loop. -/
inductive DiscErr where
  | fromQuery (e : DoQueryErr)
  | noIPs
deriving DecidableEq, Repr

/-- The possible results of one Query call, each constructor standing for
one `return` of the Go code (`errTerminal` is the `%s %s: %w` wrap of a
terminal doQuery error; `errNXDomain` and `errServerError` are the
returns of the rcode switch; `fuelOut` marks exhaustion of the step
budget and corresponds to no Go behaviour; `errNilResponse` marks the
nil-pointer dereference Go would perform on a nil response paired with a
nil error). -/
inductive WalkOutcome where
  | ok (rs : RecordSet)
  | errUnsupportedType (recordType : String)
  | errDiscovery (e : Option DiscErr)
  | errNoRootIPs
  | errTerminal (rtype name : String) (e : DoQueryErr)
  | errNXDomain (rtype name : String)
  | errServerError (rtype name : String) (rcode : Nat)
  | errServersExhausted
  | errEmptyResponse
  | errNameServersExhausted
  | errNilResponse
  | fuelOut
deriving DecidableEq, Repr

/-- The loop of `discoverRootServers`: query `NS .` at each bootstrap
address until one yields referral endpoints. -/
def discoverLoop (cfg : WalkConfig) (q : Question) :
    WalkState → List Addr → Option DiscErr → Except WalkOutcome (List Addr) × WalkState
  | st, [], lastErr => (Except.error (WalkOutcome.errDiscovery lastErr), st)
  | st, a :: rest, lastErr =>
      match doQuery cfg st q a with
      | (resp, _, _, errQ, st1) =>
          match errQ with
          | some e => discoverLoop cfg q st1 rest (some (DiscErr.fromQuery e))
          | none =>
              match resp with
              | none => (Except.error WalkOutcome.errNilResponse, st1)
              | some m =>
                  match referrals st1.ip4disabled st1.ip6disabled m with
                  | (ips, _) =>
                      if ips = [] then discoverLoop cfg q st1 rest (some DiscErr.noIPs)
                      else (Except.ok ips, st1)

/-- `(*resolver).discoverRootServers`: fail when no bootstrap servers are
known, otherwise run the discovery loop with the recursion-desired
`NS .` question. -/
def discoverRootServers (cfg : WalkConfig) (sysAddrs : List Addr) (st : WalkState) :
    Except WalkOutcome (List Addr) × WalkState :=
  if sysAddrs = [] then (Except.error (WalkOutcome.errDiscovery none), st)
  else discoverLoop cfg { name := ".", qtype := TypeNS, qclass := ClassINET } st sysAddrs none

/-- Control position inside the Query loop, mirroring the Go control
flow: `loop` is the top of the `for stack.size() > 0` loop, `retry` the
`retry:` label with the endpoint being tried, `post` the code after
`doQuery` returned (error skip, rcode switch, authoritative pop), and
`refs` the referral application at the bottom of the loop. -/
inductive Phase where
  | loop (stack : List StackFrame)
  | retry (stack : List StackFrame) (addr : Addr)
  | post (stack : List StackFrame) (addr : Addr) (resp : Option DnsMsg)
      (rtt age : Int) (errQ : Option DoQueryErr)
  | refs (stack : List StackFrame) (m : DnsMsg)

/-- The walk of `(*resolver).Query` as a fuelled step function over
`Phase`.  Each Go `continue` returns to `Phase.loop`, each `goto retry`
to `Phase.retry`; the `stack.size() == 0` guard of the rcode switch is
transcribed verbatim even though the stack is never empty at that point,
so the NXDomain/ServFail/other arms of the switch are dead code and every
non-success rcode falls into the `continue` of the else branch. -/
def walkRun (cfg : WalkConfig) (rootAddrs : List Addr) (rsInit : RecordSet) :
    Nat → WalkState → Phase → WalkOutcome × WalkState
  | 0, st, _ => (WalkOutcome.fuelOut, st)
  | Nat.succ fuel, st, Phase.loop [] => (WalkOutcome.errNameServersExhausted, st)
  | Nat.succ fuel, st, Phase.loop (frame :: rest) =>
      match frame.addrs with
      | [] => (WalkOutcome.errServersExhausted, st)
      | addr :: more =>
          walkRun cfg rootAddrs rsInit fuel st
            (Phase.retry ({ frame with addrs := more } :: rest) addr)
  | Nat.succ fuel, st, Phase.retry [] _ => (WalkOutcome.fuelOut, st)
  | Nat.succ fuel, st, Phase.retry (frame :: rest) addr0 =>
      let addr : Addr :=
        if addr0.port.isNone then { addr0 with port := some cfg.defaultPort } else addr0
      match cfg.parseIP addr0.host with
      | none => walkRun cfg rootAddrs rsInit fuel st (Phase.loop (frame :: rest))
      | some fam =>
          match doQuery cfg st frame.q addr with
          | (resp, rtt, age, errQ, st1) =>
              if isTerminal errQ then
                (WalkOutcome.errTerminal rsInit.type rsInit.name
                  ((errQ).getD DoQueryErr.circular), st1)
              else
                let st2 :=
                  if errQ == some (DoQueryErr.net NetErr.enetunreach) then
                    if fam = IPFamily.v4 then { st1 with ip4disabled := true }
                    else { st1 with ip6disabled := true }
                  else st1
                if rest ≠ [] ∧ emptyMsg resp then
                  if frame.q.qtype = TypeAAAA ∧ ¬st2.ip4disabled then
                    walkRun cfg rootAddrs rsInit fuel st2
                      (Phase.retry
                        ({ frame with q := { frame.q with qtype := TypeA } } :: rest) addr)
                  else if frame.altNames ≠ [] then
                    walkRun cfg rootAddrs rsInit fuel st2
                      (Phase.retry
                        ({ frame with
                            q := { frame.q with
                                    name := frame.altNames.headD ""
                                    qtype := if ¬st2.ip6disabled then TypeAAAA
                                             else frame.q.qtype }
                            altNames := frame.altNames.tail
                            addrs := rootAddrs.tail } :: rest)
                        (rootAddrs.headD { host := "", port := none }))
                  else
                    walkRun cfg rootAddrs rsInit fuel st2
                      (Phase.post (frame :: rest) addr resp rtt age errQ)
                else
                  walkRun cfg rootAddrs rsInit fuel st2
                    (Phase.post (frame :: rest) addr resp rtt age errQ)
  | Nat.succ fuel, st, Phase.post stack addr resp rtt age errQ =>
      if errQ.isSome then walkRun cfg rootAddrs rsInit fuel st (Phase.loop stack)
      else
        match resp with
        | none => (WalkOutcome.errNilResponse, st)
        | some m =>
            if stack.length = 0 then
              if m.rcode = RcodeNameError then
                (WalkOutcome.errNXDomain rsInit.type rsInit.name, st)
              else if m.rcode = RcodeServerFailure then
                walkRun cfg rootAddrs rsInit fuel st (Phase.loop stack)
              else if m.rcode ≠ RcodeSuccess then
                (WalkOutcome.errServerError rsInit.type rsInit.name m.rcode, st)
              else
                if isAuthoritative (some m) then
                  match stack with
                  | [] => (WalkOutcome.fuelOut, st)
                  | _ :: [] =>
                      (WalkOutcome.ok
                        (fromResponse rsInit m (addrToString addr) rtt age false), st)
                  | _ :: parent :: rest2 =>
                      walkRun cfg rootAddrs rsInit fuel st
                        (Phase.refs (parent :: rest2) m)
                else walkRun cfg rootAddrs rsInit fuel st (Phase.refs stack m)
            else if m.rcode ≠ RcodeSuccess then
              walkRun cfg rootAddrs rsInit fuel st (Phase.loop stack)
            else
              if isAuthoritative (some m) then
                match stack with
                | [] => (WalkOutcome.fuelOut, st)
                | _ :: [] =>
                    (WalkOutcome.ok
                      (fromResponse rsInit m (addrToString addr) rtt age false), st)
                | _ :: parent :: rest2 =>
                    walkRun cfg rootAddrs rsInit fuel st
                      (Phase.refs (parent :: rest2) m)
              else walkRun cfg rootAddrs rsInit fuel st (Phase.refs stack m)
  | Nat.succ fuel, st, Phase.refs [] _ => (WalkOutcome.fuelOut, st)
  | Nat.succ fuel, st, Phase.refs (cur :: rest) m =>
      match referrals st.ip4disabled st.ip6disabled m with
      | (addrs, names) =>
          if addrs ≠ [] then
            walkRun cfg rootAddrs rsInit fuel st
              (Phase.loop ({ cur with addrs := addrs } :: rest))
          else if names ≠ [] then
            walkRun cfg rootAddrs rsInit fuel st
              (Phase.loop
                ({ q := { name := names.headD ""
                        , qtype := if st.ip6disabled then TypeA else TypeAAAA
                        , qclass := ClassINET }
                  , altNames := names.tail
                  , addrs := rootAddrs } :: cur :: rest))
          else (WalkOutcome.errEmptyResponse, st)

/-- The `for stack.size() > 0` loop entry. -/
def walkLoop (cfg : WalkConfig) (rootAddrs : List Addr) (rsInit : RecordSet)
    (fuel : Nat) (st : WalkState) (stack : List StackFrame) : WalkOutcome × WalkState :=
  walkRun cfg rootAddrs rsInit fuel st (Phase.loop stack)

/-- `(*resolver).Query`, from the record-type validation through root
discovery to the walk itself.  `ip4d0`/`ip6d0` are the resolver's
configured family-disable flags, `initCache` the shared cache at entry,
`sysAddrs` the bootstrap servers, and `fuel` the step budget of the
loop. -/
def resolverQuery (cfg : WalkConfig) (ip4d0 ip6d0 : Bool) (initCache : CacheState DnsMsg)
    (sysAddrs : List Addr) (recordType domainName : String) (fuel : Nat) :
    WalkOutcome × WalkState :=
  let q0 : Question :=
    { name := canonicalName domainName
    , qtype := (stringToType recordType).getD 0
    , qclass := ClassINET }
  let rsInit : RecordSet :=
    { emptyRecordSet with
        raw := { emptyDnsMsg with question := [q0] }
        name := domainName
        type := recordType
        age := -1 * second }
  let st0 : WalkState :=
    { ip4disabled := ip4d0, ip6disabled := ip6d0, cache := initCache, trace := [] }
  if (stringToType recordType).isNone then (WalkOutcome.errUnsupportedType recordType, st0)
  else
    match discoverRootServers cfg sysAddrs st0 with
    | (Except.error o, st1) => (o, st1)
    | (Except.ok rootAddrs, st1) =>
        if rootAddrs = [] then (WalkOutcome.errNoRootIPs, st1)
        else
          walkLoop cfg rootAddrs rsInit fuel st1
            [{ q := q0, altNames := [], addrs := rootAddrs }]

/-- Bootstrap/root endpoint used by the concrete walk runs, with the
default port filled in. -/
def a250 : Addr := { host := "127.0.0.250", port := some "5354" }

/-- The same endpoint as a bare host, the form referral endpoints take. -/
def bare250 : Addr := { host := "127.0.0.250", port := none }

/-- `net.ParseIP` restricted to the test endpoints. -/
def testParseIP (s : String) : Option IPFamily :=
  if s = "127.0.0.250" ∨ s = "127.0.0.251" then some IPFamily.v4 else none

/-- The recursion-desired root-discovery question. -/
def qRootNS : Question := { name := ".", qtype := TypeNS, qclass := ClassINET }

/-- The outer question of the concrete walks. -/
def qWwwA : Question := { name := "www.example.com.", qtype := TypeA, qclass := ClassINET }

/-- Root-discovery response: one NS referral with one glue A record, so
`referrals` yields the single root endpoint 127.0.0.250. -/
def rootRefMsg : DnsMsg :=
  { rcode := RcodeSuccess, authoritative := false, question := [qRootNS]
  , answer := [{ name := ".", rrtype := TypeNS, rrclass := ClassINET, ttl := 300
               , rdata := RData.ns "self.test." }]
  , ns := []
  , extra := [{ name := "self.test.", rrtype := TypeA, rrclass := ClassINET, ttl := 300
              , rdata := RData.a "127.0.0.250" }] }

/-- An authoritative name-error (NXDomain) response to the outer
question. -/
def nxMsg : DnsMsg :=
  { rcode := RcodeNameError, authoritative := true, question := [qWwwA]
  , answer := [], ns := [], extra := [] }

/-- Exchange oracle for the C1 run: root discovery referral, then an
authoritative NXDomain answer to the outer question. -/
def exchC1 (q : Question) (a : Addr) : ExchangeResult :=
  if q = qRootNS ∧ a = a250 then { resp := some rootRefMsg, rtt := 0, err := none }
  else if q = qWwwA ∧ a = a250 then { resp := some nxMsg, rtt := 0, err := none }
  else { resp := none, rtt := 0, err := some (NetErr.other "unexpected query") }

/-- Walk configuration for the C1 run; the cache policy declines to cache
anything, so every query reaches the exchange oracle. -/
def cfgC1 : WalkConfig :=
  { defaultPort := "5354", parseIP := testParseIP, exchange := exchC1
  , cachePolicy := fun _ => 0, now := 0 }

/-- Claim C1 (code bug): the rcode switch of `(*resolver).Query` is
guarded by `stack.size() == 0`, but the stack still holds the outer frame
when its response arrives (frames are only popped after an authoritative
success), so the guard is never true and the NXDomain/ServFail/other arms
are dead: an authoritative NXDomain reply to the outer question makes the
call end with the generic "servers exhausted" error instead of the
documented ErrNXDomain wrap. -/
theorem C1_code_bug :
    (resolverQuery cfgC1 false false (Cache.new DnsMsg 1000) [a250] "A" "www.example.com" 10).1
        = WalkOutcome.errServersExhausted ∧
    (exchC1 qWwwA a250).resp = some nxMsg ∧
    nxMsg.rcode = RcodeNameError ∧
    nxMsg.authoritative = true ∧
    (resolverQuery cfgC1 false false (Cache.new DnsMsg 1000) [a250] "A" "www.example.com" 10).1
        ≠ WalkOutcome.errNXDomain "A" "www.example.com" := by
  decide

/-- Non-authoritative delegation of the outer question to two nameserver
names without glue records. -/
def comRefMsg : DnsMsg :=
  { rcode := RcodeSuccess, authoritative := false, question := [qWwwA]
  , answer := []
  , ns := [ { name := "com.", rrtype := TypeNS, rrclass := ClassINET, ttl := 300
            , rdata := RData.ns "ns1.test." }
          , { name := "com.", rrtype := TypeNS, rrclass := ClassINET, ttl := 300
            , rdata := RData.ns "ns2.test." } ]
  , extra := [] }

/-- The AAAA question the walk asks for the first delegated nameserver
name. -/
def qNs1AAAA : Question := { name := "ns1.test.", qtype := TypeAAAA, qclass := ClassINET }

/-- A SERVFAIL reply to the nameserver-address question that is not empty
(it carries an SOA in the authority section), so the empty-response
fallback does not fire. -/
def servFailNs1 : DnsMsg :=
  { rcode := RcodeServerFailure, authoritative := false, question := [qNs1AAAA]
  , answer := []
  , ns := [{ name := "ns1.test.", rrtype := TypeSOA, rrclass := ClassINET, ttl := 60
           , rdata := RData.other "soa" }]
  , extra := [] }

/-- Exchange oracle for the C2 run: root referral, then a glueless
delegation to ns1/ns2, then a non-empty SERVFAIL for ns1's address. -/
def exchC2 (q : Question) (a : Addr) : ExchangeResult :=
  if q = qRootNS ∧ a = a250 then { resp := some rootRefMsg, rtt := 0, err := none }
  else if q = qWwwA ∧ a = a250 then { resp := some comRefMsg, rtt := 0, err := none }
  else if q = qNs1AAAA ∧ a = a250 then { resp := some servFailNs1, rtt := 0, err := none }
  else { resp := none, rtt := 0, err := some (NetErr.other "unexpected query") }

/-- Walk configuration for the C2 run. -/
def cfgC2 : WalkConfig :=
  { defaultPort := "5354", parseIP := testParseIP, exchange := exchC2
  , cachePolicy := fun _ => 0, now := 0 }

/-- Counterexample run for claim C2: the delegation yields the alternate
list [ns1.test., ns2.test.]; the inner frame's only endpoint answers the
ns1 address query with a non-empty SERVFAIL, the endpoint list empties,
and the walk returns "servers exhausted" — although the frame's
alternate-name list still holds ns2.test., which is never queried (the
trace names are exactly ., www.example.com., ns1.test.). -/
theorem C2_counterexample :
    (resolverQuery cfgC2 false false (Cache.new DnsMsg 1000) [a250] "A" "www.example.com" 20).1
        = WalkOutcome.errServersExhausted ∧
    (referrals false false comRefMsg).2 = ["ns1.test.", "ns2.test."] ∧
    ((resolverQuery cfgC2 false false (Cache.new DnsMsg 1000) [a250] "A" "www.example.com" 20).2.trace.map
        (fun n => n.q.name))
      = [".", "www.example.com.", "ns1.test."] := by
  decide

/-- Non-authoritative referral whose glue points back at the very server
that sent it, so following it repeats the same (question, endpoint)
pair. -/
def selfRefMsg : DnsMsg :=
  { rcode := RcodeSuccess, authoritative := false, question := [qWwwA]
  , answer := []
  , ns := [{ name := "com.", rrtype := TypeNS, rrclass := ClassINET, ttl := 300
           , rdata := RData.ns "self.test." }]
  , extra := [{ name := "self.test.", rrtype := TypeA, rrclass := ClassINET, ttl := 300
              , rdata := RData.a "127.0.0.250" }] }

/-- Exchange oracle for the C3 run: root referral, then a self-referral
for the outer question. -/
def exchC3 (q : Question) (a : Addr) : ExchangeResult :=
  if q = qRootNS ∧ a = a250 then { resp := some rootRefMsg, rtt := 0, err := none }
  else if q = qWwwA ∧ a = a250 then { resp := some selfRefMsg, rtt := 0, err := none }
  else { resp := none, rtt := 0, err := some (NetErr.other "unexpected query") }

/-- Walk configuration for the C3 run. -/
def cfgC3 : WalkConfig :=
  { defaultPort := "5354", parseIP := testParseIP, exchange := exchC3
  , cachePolicy := fun _ => 0, now := 0 }

/-- Counterexample run for claim C3: following the self-referral repeats
the (www.example.com. A, 127.0.0.250:5354) pair; doQuery refuses it with
the Circular sentinel but still records a trace node for the refused
query, so the final trace carries that pair twice — the list of
(question, server) pairs of the trace is not duplicate-free. -/
theorem C3_counterexample :
    (resolverQuery cfgC3 false false (Cache.new DnsMsg 1000) [a250] "A" "www.example.com" 20).1
        = WalkOutcome.errTerminal "A" "www.example.com" DoQueryErr.circular ∧
    ¬ (((resolverQuery cfgC3 false false (Cache.new DnsMsg 1000) [a250] "A" "www.example.com" 20).2.trace.map
          (fun n => (n.q, n.server))).Nodup) := by
  decide

/-- Claim C2 (amended): whenever the frame on top of the walk stack has
an empty endpoint list, the loop returns the "servers exhausted" error
immediately — regardless of how many alternate nameserver names the frame
still carries.  (Alternate names are consumed only on the inner-frame
empty-response path, not when endpoints run out.) -/
theorem C2_amended (cfg : WalkConfig) (rootAddrs : List Addr) (rsInit : RecordSet)
    (fuel : Nat) (st : WalkState) (frame : StackFrame) (rest : List StackFrame)
    (h : frame.addrs = []) :
    walkLoop cfg rootAddrs rsInit (fuel + 1) st (frame :: rest)
      = (WalkOutcome.errServersExhausted, st) := by
  unfold walkLoop
  unfold walkRun
  rw [h]

/-- The C2 amended theorem applied to a frame that still holds an untried
alternate name. -/
theorem C2_amended_witness :
    walkLoop cfgC2 [bare250] emptyRecordSet 1
        { ip4disabled := false, ip6disabled := false
        , cache := Cache.new DnsMsg 1000, trace := [] }
        [{ q := qWwwA, altNames := ["ns2.test."], addrs := [] }]
      = (WalkOutcome.errServersExhausted,
         { ip4disabled := false, ip6disabled := false
         , cache := Cache.new DnsMsg 1000, trace := [] }) :=
  C2_amended cfgC2 [bare250] emptyRecordSet 0 _ _ _ rfl

/-- The (question, server) pair a trace node records. -/
def nodePair (n : TNode) : Question × Addr := (n.q, n.server)

/-- The discipline `doQuery` maintains on the trace, stated over the
reversed trace (most recent node first): a node recorded with the
Circular error duplicates the pair of an earlier node, and every other
node's (question, server) pair is new. -/
def tracedOk : List TNode → Prop
  | [] => True
  | n :: earlier =>
      (if n.err = some DoQueryErr.circular
       then nodePair n ∈ earlier.map nodePair
       else nodePair n ∉ earlier.map nodePair) ∧ tracedOk earlier

lemma traceContains_iff_mem (t : List TNode) (q : Question) (a : Addr) :
    traceContains t q a = true ↔ (q, a) ∈ t.map nodePair := by
  simp only [traceContains, List.any_eq_true, Bool.and_eq_true, beq_iff_eq,
    List.mem_map, nodePair, Prod.mk.injEq]

lemma tracedOk_append_circ {t : List TNode} {n : TNode} (h : tracedOk t.reverse)
    (he : n.err = some DoQueryErr.circular)
    (hmem : nodePair n ∈ t.map nodePair) :
    tracedOk (t ++ [n]).reverse := by
  rw [List.reverse_append]
  refine And.intro ?_ h
  rw [if_pos he]
  simpa [List.map_reverse, List.mem_reverse] using hmem

lemma tracedOk_append_new {t : List TNode} {n : TNode} (h : tracedOk t.reverse)
    (he : n.err ≠ some DoQueryErr.circular)
    (hmem : nodePair n ∉ t.map nodePair) :
    tracedOk (t ++ [n]).reverse := by
  rw [List.reverse_append]
  refine And.intro ?_ h
  rw [if_neg he]
  simpa [List.map_reverse, List.mem_reverse] using hmem

lemma doQuery_tracedOk (cfg : WalkConfig) (st : WalkState) (q : Question) (addr : Addr)
    (h : tracedOk st.trace.reverse) :
    tracedOk ((doQuery cfg st q addr).2.2.2.2).trace.reverse := by
  have hmemiff := traceContains_iff_mem st.trace q addr
  simp only [doQuery]
  split
  next hc => exact tracedOk_append_circ h rfl (hmemiff.mp hc)
  next hc =>
    have hmem : (q, addr) ∉ st.trace.map nodePair := fun hm => hc (hmemiff.mpr hm)
    split
    next hp => exact tracedOk_append_new h (by simp [mkNode]) hmem
    next hp =>
      split
      next => exact tracedOk_append_new h (by simp [mkNode]) hmem
      next fam =>
        split
        next h4 => exact tracedOk_append_new h (by simp [mkNode]) hmem
        next h4 =>
          split
          next h6 => exact tracedOk_append_new h (by simp [mkNode]) hmem
          next h6 =>
            refine tracedOk_append_new h ?_ hmem
            intro hEc
            simp only [mkNode] at hEc
            rcases Option.map_eq_some'.mp hEc with ⟨e, _, he⟩
            cases he

lemma walkRun_tracedOk (cfg : WalkConfig) (rootAddrs : List Addr) (rsInit : RecordSet) :
    ∀ (fuel : Nat) (st : WalkState) (ph : Phase),
      tracedOk st.trace.reverse →
      tracedOk ((walkRun cfg rootAddrs rsInit fuel st ph).2).trace.reverse := by
  intro fuel
  induction fuel with
  | zero => intro st ph h; exact h
  | succ n ih =>
      intro st ph h
      cases ph with
      | loop stack =>
          cases stack with
          | nil => exact h
          | cons frame rest =>
              cases hf : frame.addrs with
              | nil => simp only [walkRun, hf]; exact h
              | cons a more => simp only [walkRun, hf]; exact ih _ _ h
      | retry stack addr0 =>
          cases stack with
          | nil => exact h
          | cons frame rest =>
              simp only [walkRun]
              cases hip : cfg.parseIP addr0.host with
              | none => simp only []; exact ih _ _ h
              | some fam =>
                  simp only []
                  have hg := doQuery_tracedOk cfg st frame.q
                    (if addr0.port.isNone then { addr0 with port := some cfg.defaultPort }
                     else addr0) h
                  rcases hdq : doQuery cfg st frame.q
                    (if addr0.port.isNone then { addr0 with port := some cfg.defaultPort }
                     else addr0) with ⟨resp, rtt, age, errQ, st1⟩
                  rw [hdq] at hg
                  simp only [hdq]
                  have hg1 : tracedOk st1.trace.reverse := hg
                  split
                  · exact hg1
                  · generalize hst2 :
                      (if errQ == some (DoQueryErr.net NetErr.enetunreach) then
                          if fam = IPFamily.v4 then { st1 with ip4disabled := true }
                          else { st1 with ip6disabled := true }
                        else st1) = st2g
                    have hg2 : tracedOk st2g.trace.reverse := by
                      rw [← hst2]
                      split
                      · split
                        · exact hg1
                        · exact hg1
                      · exact hg1
                    split
                    · split
                      · exact ih _ _ hg2
                      · split
                        · exact ih _ _ hg2
                        · exact ih _ _ hg2
                    · exact ih _ _ hg2
      | post stack addr resp rtt age errQ =>
          simp only [walkRun]
          split
          · exact ih _ _ h
          · cases resp with
            | none => exact h
            | some m =>
                simp only []
                split
                · split
                  · exact h
                  · split
                    · exact ih _ _ h
                    · split
                      · exact h
                      · split
                        · cases stack with
                          | nil => exact h
                          | cons f r =>
                              cases r with
                              | nil => exact h
                              | cons parent rest2 => exact ih _ _ h
                        · exact ih _ _ h
                · split
                  · exact ih _ _ h
                  · split
                    · cases stack with
                      | nil => exact h
                      | cons f r =>
                          cases r with
                          | nil => exact h
                          | cons parent rest2 => exact ih _ _ h
                    · exact ih _ _ h
      | refs stack m =>
          cases stack with
          | nil => exact h
          | cons cur rest =>
              simp only [walkRun]
              rcases href : referrals st.ip4disabled st.ip6disabled m with ⟨addrs, names⟩
              simp only [href]
              split
              · exact ih _ _ h
              · split
                · exact ih _ _ h
                · exact h

lemma discoverLoop_tracedOk (cfg : WalkConfig) (q : Question) :
    ∀ (addrs : List Addr) (st : WalkState) (le : Option DiscErr),
      tracedOk st.trace.reverse →
      tracedOk ((discoverLoop cfg q st addrs le).2).trace.reverse := by
  intro addrs
  induction addrs with
  | nil => intro st le h; exact h
  | cons a rest ih =>
      intro st le h
      have hg := doQuery_tracedOk cfg st q a h
      rcases hdq : doQuery cfg st q a with ⟨resp, rtt, age, errQ, st1⟩
      rw [hdq] at hg
      have hg1 : tracedOk st1.trace.reverse := hg
      simp only [discoverLoop, hdq]
      cases errQ with
      | some e => exact ih st1 _ hg1
      | none =>
          cases resp with
          | none => exact hg1
          | some m =>
              simp only []
              rcases href : referrals st1.ip4disabled st1.ip6disabled m with ⟨ips, nms⟩
              simp only [href]
              split
              · exact ih st1 _ hg1
              · exact hg1

lemma resolverQuery_tracedOk (cfg : WalkConfig) (ip4d0 ip6d0 : Bool)
    (initCache : CacheState DnsMsg) (sysAddrs : List Addr)
    (recordType domainName : String) (fuel : Nat) :
    tracedOk ((resolverQuery cfg ip4d0 ip6d0 initCache sysAddrs recordType domainName fuel).2).trace.reverse := by
  have h0 : tracedOk (([] : List TNode)).reverse := trivial
  simp only [resolverQuery]
  split
  · exact h0
  · have hd : tracedOk ((discoverRootServers cfg sysAddrs
        { ip4disabled := ip4d0, ip6disabled := ip6d0, cache := initCache, trace := [] }).2).trace.reverse := by
      simp only [discoverRootServers]
      split
      · exact h0
      · exact discoverLoop_tracedOk cfg _ _ _ _ h0
    rcases hds : discoverRootServers cfg sysAddrs
        { ip4disabled := ip4d0, ip6disabled := ip6d0, cache := initCache, trace := [] }
      with ⟨exc, st1⟩
    rw [hds] at hd
    cases exc with
    | error o => exact hd
    | ok rootAddrs =>
        have hd1 : tracedOk st1.trace.reverse := hd
        show tracedOk ((if rootAddrs = [] then (WalkOutcome.errNoRootIPs, st1)
            else walkLoop cfg rootAddrs _ fuel st1 _).2).trace.reverse
        split
        · exact hd1
        · exact walkRun_tracedOk cfg _ _ _ _ _ hd1

lemma filter_rev (p : TNode → Bool) (l : List TNode) :
    l.reverse.filter p = (l.filter p).reverse := by
  induction l with
  | nil => rfl
  | cons a t ih =>
      rw [List.reverse_cons, List.filter_append, ih, List.filter_cons]
      cases hp : p a <;> simp [List.filter_cons, hp]

lemma tracedOk_nodup :
    ∀ t : List TNode, tracedOk t →
      ((t.filter (fun n => n.err != some DoQueryErr.circular)).map nodePair).Nodup := by
  intro t
  induction t with
  | nil => intro _; simp
  | cons n rest ih =>
      rintro ⟨h1, h2⟩
      by_cases hc : n.err = some DoQueryErr.circular
      · rw [List.filter_cons_of_neg (by simp [hc])]
        exact ih h2
      · rw [List.filter_cons_of_pos (by simp [hc])]
        rw [if_neg hc] at h1
        rw [List.map_cons, List.nodup_cons]
        refine ⟨fun hm => h1 ?_, ih h2⟩
        rcases List.mem_map.mp hm with ⟨m, hmf, hmp⟩
        exact List.mem_map.mpr ⟨m, List.mem_of_mem_filter hmf, hmp⟩

/-- Claim C3 (amended): in every walk, the only trace nodes whose
(question, server) pair duplicates an earlier node's pair are exactly the
nodes recorded with the Circular refusal — doQuery detects the repeated
pair and refuses the query, but still appends a node for the refused
attempt.  Consequently the pairs of the non-Circular nodes are
pairwise distinct, and each Circular node repeats the pair of an earlier
node. -/
theorem C3_amended (cfg : WalkConfig) (ip4d0 ip6d0 : Bool) (initCache : CacheState DnsMsg)
    (sysAddrs : List Addr) (recordType domainName : String) (fuel : Nat) :
    tracedOk ((resolverQuery cfg ip4d0 ip6d0 initCache sysAddrs recordType domainName fuel).2).trace.reverse ∧
    ((((resolverQuery cfg ip4d0 ip6d0 initCache sysAddrs recordType domainName fuel).2).trace.filter
        (fun n => n.err != some DoQueryErr.circular)).map nodePair).Nodup := by
  refine ⟨resolverQuery_tracedOk cfg ip4d0 ip6d0 initCache sysAddrs recordType domainName fuel, ?_⟩
  have h := tracedOk_nodup _
    (resolverQuery_tracedOk cfg ip4d0 ip6d0 initCache sysAddrs recordType domainName fuel)
  rw [filter_rev, List.map_reverse, List.nodup_reverse] at h
  exact h

/-- Map a function over the stored payload of a cache item; times are
untouched. -/
def mapItem (f : α → β) (ci : CacheItem α) : CacheItem β :=
  { msg := f ci.msg, addedAt := ci.addedAt, ttl := ci.ttl }

/-- Map a function over the stored payload of every map entry. -/
def mapEntries (f : α → β) (es : List (CacheKey × CacheItem α)) :
    List (CacheKey × CacheItem β) :=
  es.map (fun e => (e.1, mapItem f e.2))

/-- Read a pointer-level cache (payloads are heap ids) as a value-level
cache: keys, times, LRU order and the panic flag are identical, only the
payloads are dereferenced. -/
def mapCache (f : α → β) (s : CacheState α) : CacheState β :=
  { maxSize := s.maxSize, entries := mapEntries f s.entries
  , lru := s.lru, panicked := s.panicked }

lemma lookupEntry_mapEntries (f : α → β) (k : CacheKey)
    (es : List (CacheKey × CacheItem α)) :
    lookupEntry k (mapEntries f es) = (lookupEntry k es).map (mapItem f) := by
  induction es with
  | nil => rfl
  | cons e t ih =>
      by_cases he : (e.1 == k) = true
      · simp [lookupEntry, mapEntries, List.find?_cons_of_pos, he]
      · have he' : (e.1 == k) = false := by revert he; cases e.1 == k <;> simp
        simp only [lookupEntry, mapEntries, List.map_cons] at ih ⊢
        rw [List.find?_cons_of_neg, List.find?_cons_of_neg]
        · exact ih
        · simp [he']
        · simp [he']

lemma length_mapEntries (f : α → β) (es : List (CacheKey × CacheItem α)) :
    (mapEntries f es).length = es.length :=
  List.length_map es _

lemma eraseEntry_mapEntries (f : α → β) (k : CacheKey)
    (es : List (CacheKey × CacheItem α)) :
    eraseEntry k (mapEntries f es) = mapEntries f (eraseEntry k es) := by
  simp only [eraseEntry, mapEntries, List.filter_map]
  rfl

lemma setEntry_mapEntries (f : α → β) (k : CacheKey) (it : CacheItem α)
    (es : List (CacheKey × CacheItem α)) :
    setEntry k (mapItem f it) (mapEntries f es) = mapEntries f (setEntry k it es) := by
  have hany : ((mapEntries f es).any fun e => e.1 == k) = (es.any fun e => e.1 == k) := by
    induction es with
    | nil => rfl
    | cons e t ih =>
        simp only [mapEntries, List.map_cons, List.any_cons] at ih ⊢
        rw [ih]
  unfold setEntry
  rw [hany]
  by_cases h : (es.any fun e => e.1 == k) = true
  · rw [if_pos h, if_pos h]
    unfold mapEntries
    rw [List.map_map, List.map_map]
    apply List.map_congr_left
    intro e _
    by_cases hk : (e.1 == k) = true
    · simp [Function.comp, hk, mapItem]
    · have hk' : (e.1 == k) = false := by revert hk; cases e.1 == k <;> simp
      simp [Function.comp, hk']
  · rw [if_neg h, if_neg h]
    unfold mapEntries
    rw [List.map_append]
    rfl

lemma updatedLru_mapCache (f : α → β) (s : CacheState α) (key : CacheKey) :
    Cache.updatedLru (mapCache f s) key = Cache.updatedLru s key := by
  unfold Cache.updatedLru
  rw [show (mapCache f s).entries = mapEntries f s.entries from rfl,
    lookupEntry_mapEntries, show (mapCache f s).lru = s.lru from rfl]
  cases lookupEntry key s.entries <;> rfl

lemma prune_mapEntries (f : α → β) (ms : Int) :
    ∀ (lru : List CacheKey) (es : List (CacheKey × CacheItem α)),
      Cache.prune ms (mapEntries f es) lru
        = (mapEntries f (Cache.prune ms es lru).1,
           (Cache.prune ms es lru).2.1, (Cache.prune ms es lru).2.2) := by
  intro lru
  induction lru with
  | nil =>
      intro es
      by_cases h : (es.length : Int) > ms
      · simp [Cache.prune, length_mapEntries, h]
      · simp [Cache.prune, length_mapEntries, h]
  | cons k rest ih =>
      intro es
      by_cases h : (es.length : Int) > ms
      · simp only [Cache.prune, length_mapEntries, h, if_true]
        rw [eraseEntry_mapEntries]
        exact ih _
      · simp [Cache.prune, length_mapEntries, h]

lemma lookup_mapCache (f : α → β) (s : CacheState α) (q : Question) (addr : String)
    (now : Int) :
    Cache.lookup (mapCache f s) q addr now
      = (mapCache f (Cache.lookup s q addr now).1,
         (Cache.lookup s q addr now).2.1.map f,
         (Cache.lookup s q addr now).2.2.1,
         (Cache.lookup s q addr now).2.2.2) := by
  unfold Cache.lookup
  rw [show (mapCache f s).entries = mapEntries f s.entries from rfl,
    lookupEntry_mapEntries]
  cases h : lookupEntry { addr := addr, q := q } s.entries with
  | none => simp [mapCache]
  | some ci =>
      simp only [Option.map_some']
      by_cases hexp : ci.addedAt + ci.ttl < now
      · simp only [mapItem, hexp, if_true]
        simp [mapCache, eraseEntry_mapEntries]
      · simp only [mapItem, hexp, if_false]
        simp [mapCache, mapItem]

lemma update_mapCache (f : α → β) (s : CacheState α) (q : Question) (addr : String)
    (x : α) (ttl now : Int) :
    Cache.update (mapCache f s) q addr (f x) ttl now
      = mapCache f (Cache.update s q addr x ttl now) := by
  have hset : setEntry { addr := addr, q := q }
      { msg := f x, addedAt := now, ttl := ttl } (mapCache f s).entries
      = mapEntries f (setEntry { addr := addr, q := q }
          { msg := x, addedAt := now, ttl := ttl } s.entries) :=
    setEntry_mapEntries f { addr := addr, q := q }
      { msg := x, addedAt := now, ttl := ttl } s.entries
  have hlru : Cache.updatedLru (mapCache f s) { addr := addr, q := q }
      = Cache.updatedLru s { addr := addr, q := q } := updatedLru_mapCache f s _
  unfold Cache.update
  rw [hset, hlru, show (mapCache f s).maxSize = s.maxSize from rfl, prune_mapEntries]
  simp [mapCache, mapEntries, List.length_map]

lemma mapCache_congr {f g : α → β} (s : CacheState α)
    (h : ∀ e ∈ s.entries, f e.2.msg = g e.2.msg) : mapCache f s = mapCache g s := by
  simp only [mapCache, mapEntries, CacheState.mk.injEq, true_and, and_true]
  apply List.map_congr_left
  intro e he
  simp [mapItem, h e he]

lemma mem_prune_entries (ms : Int) :
    ∀ (lru : List CacheKey) (es : List (CacheKey × CacheItem α)) (e : CacheKey × CacheItem α),
      e ∈ (Cache.prune ms es lru).1 → e ∈ es := by
  intro lru
  induction lru with
  | nil =>
      intro es e
      by_cases h : (es.length : Int) > ms <;> simp [Cache.prune, h]
  | cons k rest ih =>
      intro es e hm
      by_cases h : (es.length : Int) > ms
      · simp only [Cache.prune, h, if_true] at hm
        exact List.mem_of_mem_filter (ih _ _ hm)
      · simpa [Cache.prune, h] using hm

lemma mem_setEntry (k : CacheKey) (it : CacheItem α)
    (es : List (CacheKey × CacheItem α)) (e : CacheKey × CacheItem α)
    (hm : e ∈ setEntry k it es) : e = (k, it) ∨ e ∈ es := by
  unfold setEntry at hm
  by_cases h : es.any (fun x => x.1 == k) = true
  · rw [if_pos h] at hm
    rcases List.mem_map.mp hm with ⟨x, hx, hxe⟩
    by_cases hk : (x.1 == k) = true
    · rw [if_pos hk] at hxe; exact Or.inl hxe.symm
    · rw [if_neg hk] at hxe; exact Or.inr (hxe ▸ hx)
  · rw [if_neg h] at hm
    rcases List.mem_append.mp hm with h1 | h1
    · exact Or.inr h1
    · exact Or.inl (List.mem_singleton.mp h1)

lemma mem_update_entries (s : CacheState α) (q : Question) (addr : String)
    (v : α) (ttl now : Int) (e : CacheKey × CacheItem α)
    (hm : e ∈ (Cache.update s q addr v ttl now).entries) :
    e.2.msg = v ∨ ∃ e' ∈ s.entries, e.2.msg = e'.2.msg := by
  have h1 : e ∈ setEntry { addr := addr, q := q }
      { msg := v, addedAt := now, ttl := ttl } s.entries :=
    mem_prune_entries _ _ _ _ hm
  rcases mem_setEntry _ _ _ _ h1 with h2 | h2
  · exact Or.inl (by rw [h2])
  · exact Or.inr ⟨e, h2, rfl⟩

lemma mem_lookup_entries (s : CacheState α) (q : Question) (addr : String) (now : Int) :
    ∀ e ∈ ((Cache.lookup s q addr now).1).entries, e ∈ s.entries := by
  unfold Cache.lookup
  cases h : lookupEntry { addr := addr, q := q } s.entries with
  | none => intro e he; exact he
  | some ci =>
      show ∀ e ∈ ((if ci.addedAt + ci.ttl < now then _
          else _ : CacheState α × Option α × Int × Int)).1.entries, e ∈ s.entries
      intro e he
      by_cases hexp : ci.addedAt + ci.ttl < now
      · rw [if_pos hexp] at he
        exact List.mem_of_mem_filter he
      · rw [if_neg hexp] at he
        exact he

/-- A heap of allocated `dns.Msg` objects: ids bound to current values.
`*dns.Msg` pointers are modelled as ids, `(*dns.Msg).Copy()` as a fresh
allocation holding the dereferenced value. -/
def heapGetD (h : List (Nat × DnsMsg)) (i : Nat) : DnsMsg :=
  ((h.find? (fun e => e.1 == i)).map (fun e => e.2)).getD emptyDnsMsg

/-- In-place mutation of the object behind an id (the caller writing
through its pointer). -/
def heapSet (h : List (Nat × DnsMsg)) (i : Nat) (m : DnsMsg) : List (Nat × DnsMsg) :=
  h.map (fun e => if e.1 == i then (i, m) else e)

lemma heapGetD_snoc_lt (h : List (Nat × DnsMsg)) (n : Nat) (m : DnsMsg) (j : Nat)
    (hj : j < n) : heapGetD (h ++ [(n, m)]) j = heapGetD h j := by
  unfold heapGetD
  rw [List.find?_append]
  cases hf : h.find? (fun e => e.1 == j) with
  | some e => rfl
  | none =>
      have : ((n, m).1 == j) = false := by
        simp only [beq_eq_false_iff_ne]
        omega
      simp [List.find?, this]

lemma heapGetD_snoc_self (h : List (Nat × DnsMsg)) (n : Nat) (m : DnsMsg)
    (hk : ∀ e ∈ h, e.1 ≠ n) : heapGetD (h ++ [(n, m)]) n = m := by
  unfold heapGetD
  rw [List.find?_append]
  have hf : h.find? (fun e => e.1 == n) = none := by
    rw [List.find?_eq_none]
    intro e he
    simp [hk e he]
  simp [hf, List.find?]

lemma heapSet_find? (h : List (Nat × DnsMsg)) (i : Nat) (m : DnsMsg) (j : Nat)
    (hne : j ≠ i) :
    (heapSet h i m).find? (fun e => e.1 == j) = h.find? (fun e => e.1 == j) := by
  induction h with
  | nil => rfl
  | cons e t ih =>
      by_cases he : (e.1 == i) = true
      · have hei : e.1 = i := by simpa using he
        have hji : ((i : Nat) == j) = false := by
          simp only [beq_eq_false_iff_ne]
          omega
        have hej : (e.1 == j) = false := by
          rw [hei]
          exact hji
        simp only [heapSet, List.map_cons, he, if_true]
        rw [List.find?_cons_of_neg _ (by simp [hji]), List.find?_cons_of_neg _ (by simp [hej])]
        exact ih
      · have he' : (e.1 == i) = false := by revert he; cases e.1 == i <;> simp
        simp only [heapSet, List.map_cons, he', if_false]
        by_cases hj : (e.1 == j) = true
        · rw [List.find?_cons_of_pos _ (by simp [hj]), List.find?_cons_of_pos _ (by simp [hj])]
          simp
        · rw [List.find?_cons_of_neg _ (by simpa using hj), List.find?_cons_of_neg _ (by simpa using hj)]
          exact ih

lemma heapGetD_heapSet_ne (h : List (Nat × DnsMsg)) (i : Nat) (m : DnsMsg) (j : Nat)
    (hne : j ≠ i) : heapGetD (heapSet h i m) j = heapGetD h j := by
  unfold heapGetD
  rw [heapSet_find? h i m j hne]

lemma heapGetD_heapSet_self (h : List (Nat × DnsMsg)) (i : Nat) (m : DnsMsg)
    (hdom : (h.find? (fun e => e.1 == i)).isSome = true) :
    heapGetD (heapSet h i m) i = m := by
  induction h with
  | nil => simp [List.find?] at hdom
  | cons e t ih =>
      by_cases he : (e.1 == i) = true
      · simp only [heapSet, List.map_cons, he, if_true]
        unfold heapGetD
        rw [List.find?_cons_of_pos _ (by simp)]
        rfl
      · have he' : (e.1 == i) = false := by revert he; cases e.1 == i <;> simp
        rw [List.find?_cons_of_neg _ (by simpa using he)] at hdom
        simp only [heapSet, List.map_cons, he', if_false]
        unfold heapGetD
        rw [List.find?_cons_of_neg _ (by simpa using he)]
        exact ih hdom

lemma heapSet_keys (h : List (Nat × DnsMsg)) (i : Nat) (m : DnsMsg) :
    ∀ e ∈ heapSet h i m, ∃ e1 ∈ h, e.1 = e1.1 := by
  intro e he
  rcases List.mem_map.mp he with ⟨x, hx, hxe⟩
  by_cases hk : (x.1 == i) = true
  · rw [if_pos hk] at hxe
    exact ⟨x, hx, by rw [← hxe]; exact (show x.1 = i by simpa using hk).symm⟩
  · rw [if_neg hk] at hxe
    exact ⟨x, hx, by rw [hxe]⟩

lemma heapSet_isSome (h : List (Nat × DnsMsg)) (i : Nat) (m : DnsMsg) (j : Nat) :
    ((heapSet h i m).find? (fun e => e.1 == j)).isSome
      = (h.find? (fun e => e.1 == j)).isSome := by
  by_cases hne : j = i
  · subst hne
    induction h with
    | nil => rfl
    | cons e t ih =>
        by_cases he : (e.1 == j) = true
        · simp only [heapSet, List.map_cons, he, if_true]
          rw [List.find?_cons_of_pos _ (by simp), List.find?_cons_of_pos _ (by simp [he])]
          rfl
        · have he' : (e.1 == j) = false := by revert he; cases e.1 == j <;> simp
          simp only [heapSet, List.map_cons, he', if_false]
          rw [List.find?_cons_of_neg _ (by simpa using he), List.find?_cons_of_neg _ (by simpa using he)]
          exact ih
  · rw [heapSet_find? h i m j hne]

lemma map_heapGetD_heapSet (hp : List (Nat × DnsMsg)) (i : Nat) (m : DnsMsg) :
    ∀ (held : List Nat) (k : Nat), held.Nodup → held.get? k = some i →
      (hp.find? (fun e => e.1 == i)).isSome = true →
      held.map (heapGetD (heapSet hp i m)) = (held.map (heapGetD hp)).set k m := by
  intro held
  induction held with
  | nil => intro k _ hk; cases hk
  | cons a t ih =>
      intro k hnd hk hdom
      cases k with
      | zero =>
          have ha : a = i := by simpa using hk
          subst ha
          rw [List.map_cons, List.map_cons, List.set_cons_zero]
          refine congrArg₂ _ (heapGetD_heapSet_self hp a m hdom) ?_
          apply List.map_congr_left
          intro x hx
          have hxa : x ≠ a := by
            intro hxe
            exact (List.nodup_cons.mp hnd).1 (hxe ▸ hx)
          exact heapGetD_heapSet_ne hp a m x hxa
      | succ k1 =>
          rw [List.map_cons, List.map_cons, List.set_cons_succ]
          have hit : t.get? k1 = some i := by simpa using hk
          have hai : a ≠ i := by
            intro hae
            exact (List.nodup_cons.mp hnd).1 (hae ▸ List.get?_mem hit)
          exact congrArg₂ _ (heapGetD_heapSet_ne hp i m a hai)
            (ih k1 (List.nodup_cons.mp hnd).2 hit hdom)

/-- Pointer-level state: the allocation counter, the heap, the ids the
caller holds pointers to (in acquisition order), and the cache whose
stored payloads are heap ids. -/
structure PtrState where
  next : Nat
  heap : List (Nat × DnsMsg)
  held : List Nat
  cache : CacheState Nat

/-- Value-level state: the caller's messages by value and a cache storing
message values. -/
structure ValState where
  env : List DnsMsg
  cache : CacheState DnsMsg

/-- Allocate a fresh object holding `m` (this is what `(*dns.Msg).Copy()`
does to the heap). -/
def allocPtr (p : PtrState) (m : DnsMsg) : Nat × PtrState :=
  (p.next, { p with next := p.next + 1, heap := p.heap ++ [(p.next, m)] })

/-- The operations of the aliasing experiment: the caller creates a
message, mutates a message it holds (through its pointer), passes a held
message to `Cache.Update`, calls `Cache.Lookup`, or clears the cache.
`k` indexes the caller's held messages in acquisition order. -/
inductive AliasOp where
  | clientNew (m : DnsMsg)
  | mutate (k : Nat) (m : DnsMsg)
  | update (q : Question) (addr : String) (k : Nat) (ttl now : Int)
  | lookup (q : Question) (addr : String) (now : Int)
  | clear

/-- Pointer semantics, transcribing the `Copy` calls of `cache.go`:
`Update` stores `resp.Copy()` — a fresh allocation, never the caller's
id — and `Lookup` returns `ci.msg.Copy()` — again a fresh allocation,
which the caller then holds.  A lookup reports the value behind the
returned pointer (`none` for a miss). -/
def applyPtrOp (p : PtrState) : AliasOp → PtrState × Option (Option DnsMsg)
  | AliasOp.clientNew m =>
      ({ (allocPtr p m).2 with held := p.held ++ [(allocPtr p m).1] }, none)
  | AliasOp.mutate k m =>
      match p.held.get? k with
      | none => (p, none)
      | some i => ({ p with heap := heapSet p.heap i m }, none)
  | AliasOp.update q addr k ttl now =>
      match p.held.get? k with
      | none => (p, none)
      | some i =>
          ({ (allocPtr p (heapGetD p.heap i)).2 with
              held := p.held
              cache := Cache.update p.cache q addr (allocPtr p (heapGetD p.heap i)).1 ttl now },
            none)
  | AliasOp.lookup q addr now =>
      match (Cache.lookup p.cache q addr now).2.1 with
      | none => ({ p with cache := (Cache.lookup p.cache q addr now).1 }, some none)
      | some i =>
          ({ (allocPtr p (heapGetD p.heap i)).2 with
              held := p.held ++ [(allocPtr p (heapGetD p.heap i)).1]
              cache := (Cache.lookup p.cache q addr now).1 },
            some (some (heapGetD p.heap i)))
  | AliasOp.clear => ({ p with cache := Cache.clear p.cache }, none)

/-- Value semantics: the same operations on a cache that stores message
values.  Mutating one of the caller's messages changes only the caller's
copy; cached entries are values and cannot be reached. -/
def applyValOp (s : ValState) : AliasOp → ValState × Option (Option DnsMsg)
  | AliasOp.clientNew m => ({ s with env := s.env ++ [m] }, none)
  | AliasOp.mutate k m =>
      match s.env.get? k with
      | none => (s, none)
      | some _ => ({ s with env := s.env.set k m }, none)
  | AliasOp.update q addr k ttl now =>
      match s.env.get? k with
      | none => (s, none)
      | some v => ({ s with cache := Cache.update s.cache q addr v ttl now }, none)
  | AliasOp.lookup q addr now =>
      match (Cache.lookup s.cache q addr now).2.1 with
      | none => ({ s with cache := (Cache.lookup s.cache q addr now).1 }, some none)
      | some v =>
          ({ s with env := s.env ++ [v], cache := (Cache.lookup s.cache q addr now).1 },
            some (some v))
  | AliasOp.clear => ({ s with cache := Cache.clear s.cache }, none)

/-- Run a pointer-level experiment, collecting the lookup reports. -/
def runPtr : PtrState → List AliasOp → PtrState × List (Option DnsMsg)
  | p, [] => (p, [])
  | p, op :: ops =>
      ((runPtr (applyPtrOp p op).1 ops).1,
       (applyPtrOp p op).2.toList ++ (runPtr (applyPtrOp p op).1 ops).2)

/-- Run a value-level experiment, collecting the lookup reports. -/
def runVal : ValState → List AliasOp → ValState × List (Option DnsMsg)
  | s, [] => (s, [])
  | s, op :: ops =>
      ((runVal (applyValOp s op).1 ops).1,
       (applyValOp s op).2.toList ++ (runVal (applyValOp s op).1 ops).2)

/-- The simulation invariant between the two models: the value cache is
the pointer cache with ids dereferenced, the caller's value environment
is the held ids dereferenced, held ids are distinct, all ids are
allocated, every id below the counter is bound in the heap, and — the
aliasing fact — no id stored in the cache is held by the caller. -/
def AliasInv (p : PtrState) (s : ValState) : Prop :=
  s.cache = mapCache (heapGetD p.heap) p.cache ∧
  s.env = p.held.map (heapGetD p.heap) ∧
  p.held.Nodup ∧
  (∀ i ∈ p.held, i < p.next) ∧
  (∀ e ∈ p.cache.entries, e.2.msg < p.next ∧ e.2.msg ∉ p.held) ∧
  (∀ e ∈ p.heap, e.1 < p.next) ∧
  (∀ i : Nat, i < p.next → (p.heap.find? (fun e => e.1 == i)).isSome = true)

/-- The initial states are in the relation. -/
lemma aliasInv_init (maxSize : Int) :
    AliasInv { next := 0, heap := [], held := [], cache := Cache.new Nat maxSize }
      { env := [], cache := Cache.new DnsMsg maxSize } := by
  refine ⟨rfl, rfl, List.nodup_nil, ?_, ?_, ?_, ?_⟩
  · intro i hi; cases hi
  · intro e he; cases he
  · intro e he; cases he
  · intro i hi; exact absurd hi (Nat.not_lt_zero i)

lemma lookupEntry_mem (k : CacheKey) (es : List (CacheKey × CacheItem α)) (ci : CacheItem α)
    (h : lookupEntry k es = some ci) : ∃ e ∈ es, e.2 = ci := by
  unfold lookupEntry at h
  cases hf : es.find? (fun e => e.1 == k) with
  | none => rw [hf] at h; cases h
  | some e =>
      rw [hf] at h
      exact ⟨e, List.mem_of_find?_eq_some hf, by simpa using h⟩

lemma lookup_result_mem (s : CacheState α) (q : Question) (addr : String) (now : Int) :
    ∀ x, (Cache.lookup s q addr now).2.1 = some x → ∃ e ∈ s.entries, e.2.msg = x := by
  unfold Cache.lookup
  cases h : lookupEntry { addr := addr, q := q } s.entries with
  | none => intro x hx; cases hx
  | some ci =>
      show ∀ x, ((if ci.addedAt + ci.ttl < now then _
          else _ : CacheState α × Option α × Int × Int)).2.1 = some x →
        ∃ e ∈ s.entries, e.2.msg = x
      intro x hx
      by_cases hexp : ci.addedAt + ci.ttl < now
      · rw [if_pos hexp] at hx; cases hx
      · rw [if_neg hexp] at hx
        obtain ⟨e, he, hev⟩ := lookupEntry_mem _ _ _ h
        exact ⟨e, he, by rw [hev]; simpa using hx⟩

lemma heapDom_snoc (hp : List (Nat × DnsMsg)) (n : Nat) (m : DnsMsg)
    (hdom : ∀ i : Nat, i < n → (hp.find? (fun e => e.1 == i)).isSome = true) :
    ∀ i : Nat, i < n + 1 → ((hp ++ [(n, m)]).find? (fun e => e.1 == i)).isSome = true := by
  intro i hi
  rw [List.find?_append]
  by_cases hlt : i < n
  · rcases Option.isSome_iff_exists.mp (hdom i hlt) with ⟨x, hx⟩
    simp [hx]
  · have hieq : n = i := by omega
    cases hf : hp.find? (fun e => e.1 == i)
    · simp [hf, List.find?, hieq]
    · simp [hf]

lemma map_heapGetD_snoc (hp : List (Nat × DnsMsg)) (n : Nat) (m : DnsMsg)
    (held : List Nat) (hb : ∀ i ∈ held, i < n) :
    held.map (heapGetD (hp ++ [(n, m)])) = held.map (heapGetD hp) := by
  apply List.map_congr_left
  intro i hi
  exact heapGetD_snoc_lt hp n m i (hb i hi)

lemma mapCache_snoc (hp : List (Nat × DnsMsg)) (n : Nat) (m : DnsMsg)
    (c : CacheState Nat) (hb : ∀ e ∈ c.entries, e.2.msg < n) :
    mapCache (heapGetD (hp ++ [(n, m)])) c = mapCache (heapGetD hp) c :=
  mapCache_congr c (fun e he => heapGetD_snoc_lt hp n m e.2.msg (hb e he))

lemma update_snoc (hp : List (Nat × DnsMsg)) (n : Nat) (v : DnsMsg) (c : CacheState Nat)
    (q : Question) (addr : String) (ttl now : Int)
    (hb : ∀ e ∈ c.entries, e.2.msg < n)
    (hkeysne : ∀ e ∈ hp, e.1 ≠ n) :
    Cache.update (mapCache (heapGetD hp) c) q addr v ttl now
      = mapCache (heapGetD (hp ++ [(n, v)])) (Cache.update c q addr n ttl now) := by
  rw [← update_mapCache, heapGetD_snoc_self hp n v hkeysne, mapCache_snoc hp n v c hb]

lemma alias_step_clientNew (p : PtrState) (s : ValState) (m : DnsMsg) (h : AliasInv p s) :
    AliasInv (applyPtrOp p (AliasOp.clientNew m)).1 (applyValOp s (AliasOp.clientNew m)).1 ∧
      (applyPtrOp p (AliasOp.clientNew m)).2 = (applyValOp s (AliasOp.clientNew m)).2 := by
  obtain ⟨hc, he, hnd, hheld, hstored, hkeys, hdom⟩ := h
  simp only [applyPtrOp, applyValOp, allocPtr]
  refine ⟨⟨?_, ?_, ?_, ?_, ?_, ?_, ?_⟩, by trivial⟩
  · rw [mapCache_snoc p.heap p.next m p.cache (fun e he1 => (hstored e he1).1)]
    exact hc
  · rw [List.map_append, map_heapGetD_snoc p.heap p.next m p.held hheld, ← he]
    have hself : heapGetD (p.heap ++ [(p.next, m)]) p.next = m :=
      heapGetD_snoc_self p.heap p.next m (fun e he1 => by have := hkeys e he1; omega)
    simp [hself]
  · rw [List.nodup_append]
    refine ⟨hnd, List.nodup_singleton _, ?_⟩
    intro a ha hb
    have h1 := hheld a ha
    have h2 : a = p.next := List.mem_singleton.mp hb
    omega
  · intro i hi
    show i < p.next + 1
    rcases List.mem_append.mp hi with h1 | h1
    · have := hheld i h1; omega
    · have h2 : i = p.next := List.mem_singleton.mp h1
      omega
  · intro e he1
    have hs := hstored e he1
    refine ⟨show e.2.msg < p.next + 1 by omega, ?_⟩
    show e.2.msg ∉ p.held ++ [p.next]
    intro hmem
    rcases List.mem_append.mp hmem with h1 | h1
    · exact hs.2 h1
    · have h2 : e.2.msg = p.next := List.mem_singleton.mp h1
      omega
  · intro e he1
    show e.1 < p.next + 1
    rcases List.mem_append.mp he1 with h1 | h1
    · have := hkeys e h1; omega
    · have h2 : e = (p.next, m) := List.mem_singleton.mp h1
      rw [h2]
      exact Nat.lt_succ_self p.next
  · exact heapDom_snoc p.heap p.next m hdom

lemma alias_step_mutate (p : PtrState) (s : ValState) (k : Nat) (m : DnsMsg)
    (h : AliasInv p s) :
    AliasInv (applyPtrOp p (AliasOp.mutate k m)).1 (applyValOp s (AliasOp.mutate k m)).1 ∧
      (applyPtrOp p (AliasOp.mutate k m)).2 = (applyValOp s (AliasOp.mutate k m)).2 := by
  obtain ⟨hc, he, hnd, hheld, hstored, hkeys, hdom⟩ := h
  have hegk : s.env.get? k = (p.held.get? k).map (heapGetD p.heap) := by
    rw [he, List.get?_map]
  simp only [applyPtrOp, applyValOp]
  cases hk : p.held.get? k with
  | none =>
      rw [hegk, hk]
      exact ⟨⟨hc, he, hnd, hheld, hstored, hkeys, hdom⟩, by trivial⟩
  | some i =>
      have hienv : s.env.get? k = some (heapGetD p.heap i) := by rw [hegk, hk]; rfl
      rw [hienv]
      have him : i ∈ p.held := List.get?_mem hk
      have hidom : (p.heap.find? (fun e => e.1 == i)).isSome = true := hdom i (hheld i him)
      refine ⟨⟨?_, ?_, hnd, hheld, hstored, ?_, ?_⟩, by trivial⟩
      · rw [hc]
        exact mapCache_congr p.cache (fun e he1 =>
          (heapGetD_heapSet_ne p.heap i m e.2.msg
            (fun hei => (hstored e he1).2 (hei ▸ him))).symm)
      · rw [map_heapGetD_heapSet p.heap i m p.held k hnd hk hidom, ← he]
      · intro e he1
        obtain ⟨e1, he2, heq⟩ := heapSet_keys p.heap i m e he1
        rw [heq]; exact hkeys e1 he2
      · intro j hj
        rw [heapSet_isSome]
        exact hdom j hj

lemma alias_step_update (p : PtrState) (s : ValState) (q : Question) (addr : String)
    (k : Nat) (ttl now : Int) (h : AliasInv p s) :
    AliasInv (applyPtrOp p (AliasOp.update q addr k ttl now)).1
        (applyValOp s (AliasOp.update q addr k ttl now)).1 ∧
      (applyPtrOp p (AliasOp.update q addr k ttl now)).2
        = (applyValOp s (AliasOp.update q addr k ttl now)).2 := by
  obtain ⟨hc, he, hnd, hheld, hstored, hkeys, hdom⟩ := h
  have hegk : s.env.get? k = (p.held.get? k).map (heapGetD p.heap) := by
    rw [he, List.get?_map]
  simp only [applyPtrOp, applyValOp, allocPtr]
  cases hk : p.held.get? k with
  | none =>
      rw [hegk, hk]
      exact ⟨⟨hc, he, hnd, hheld, hstored, hkeys, hdom⟩, by trivial⟩
  | some i =>
      have hienv : s.env.get? k = some (heapGetD p.heap i) := by rw [hegk, hk]; rfl
      rw [hienv]
      have hnextmem : p.next ∉ p.held := fun hmem => by have := hheld _ hmem; omega
      have hkeysne : ∀ e ∈ p.heap, e.1 ≠ p.next := fun e he1 => by have := hkeys e he1; omega
      refine ⟨⟨?_, ?_, hnd, ?_, ?_, ?_, ?_⟩, by trivial⟩
      · rw [hc]
        exact update_snoc p.heap p.next (heapGetD p.heap i) p.cache q addr ttl now
          (fun e he1 => (hstored e he1).1) hkeysne
      · rw [map_heapGetD_snoc p.heap p.next _ p.held hheld]
        exact he
      · intro j hj
        show j < p.next + 1
        have := hheld j hj; omega
      · intro e he1
        rcases mem_update_entries p.cache q addr p.next ttl now e he1 with h1 | ⟨e1, he2, h1⟩
        · refine ⟨show e.2.msg < p.next + 1 by rw [h1]; omega, ?_⟩
          show e.2.msg ∉ p.held
          rw [h1]; exact hnextmem
        · have hs := hstored e1 he2
          refine ⟨show e.2.msg < p.next + 1 by rw [h1]; omega, ?_⟩
          show e.2.msg ∉ p.held
          rw [h1]; exact hs.2
      · intro e he1
        show e.1 < p.next + 1
        rcases List.mem_append.mp he1 with h1 | h1
        · have := hkeys e h1; omega
        · have h2 : e = (p.next, heapGetD p.heap i) := List.mem_singleton.mp h1
          rw [h2]
          exact Nat.lt_succ_self p.next
      · exact heapDom_snoc p.heap p.next _ hdom

lemma alias_step_lookup (p : PtrState) (s : ValState) (q : Question) (addr : String)
    (now : Int) (h : AliasInv p s) :
    AliasInv (applyPtrOp p (AliasOp.lookup q addr now)).1
        (applyValOp s (AliasOp.lookup q addr now)).1 ∧
      (applyPtrOp p (AliasOp.lookup q addr now)).2
        = (applyValOp s (AliasOp.lookup q addr now)).2 := by
  obtain ⟨hc, he, hnd, hheld, hstored, hkeys, hdom⟩ := h
  have hvl : Cache.lookup s.cache q addr now
      = (mapCache (heapGetD p.heap) (Cache.lookup p.cache q addr now).1,
         (Cache.lookup p.cache q addr now).2.1.map (heapGetD p.heap),
         (Cache.lookup p.cache q addr now).2.2.1,
         (Cache.lookup p.cache q addr now).2.2.2) := by
    rw [hc]; exact lookup_mapCache _ _ _ _ _
  simp only [applyPtrOp, applyValOp]
  cases hres : (Cache.lookup p.cache q addr now).2.1 with
  | none =>
      have hv1 : (Cache.lookup s.cache q addr now).2.1 = none := by rw [hvl, hres]; rfl
      rw [hv1]
      simp only [allocPtr]
      refine ⟨⟨?_, he, hnd, hheld, ?_, hkeys, hdom⟩, by trivial⟩
      · rw [hvl]
      · intro e he1
        exact hstored e (mem_lookup_entries p.cache q addr now e he1)
  | some i =>
      have hv1 : (Cache.lookup s.cache q addr now).2.1 = some (heapGetD p.heap i) := by
        rw [hvl, hres]; rfl
      rw [hv1]
      simp only [allocPtr]
      obtain ⟨e0, he0, he0m⟩ := lookup_result_mem p.cache q addr now i hres
      have hstored0 := hstored e0 he0
      rw [he0m] at hstored0
      have hnextmem : p.next ∉ p.held := fun hmem => by have := hheld _ hmem; omega
      have hkeysne : ∀ e ∈ p.heap, e.1 ≠ p.next := fun e he1 => by have := hkeys e he1; omega
      refine ⟨⟨?_, ?_, ?_, ?_, ?_, ?_, ?_⟩, by trivial⟩
      · rw [hvl]
        exact (mapCache_snoc p.heap p.next _ (Cache.lookup p.cache q addr now).1
          (fun e he1 => (hstored e (mem_lookup_entries p.cache q addr now e he1)).1)).symm
      · rw [List.map_append, map_heapGetD_snoc p.heap p.next _ p.held hheld, ← he]
        have hself := heapGetD_snoc_self p.heap p.next (heapGetD p.heap i) hkeysne
        simp [hself]
      · rw [List.nodup_append]
        refine ⟨hnd, List.nodup_singleton _, ?_⟩
        intro a ha hb
        have h1 := hheld a ha
        have h2 : a = p.next := List.mem_singleton.mp hb
        omega
      · intro j hj
        show j < p.next + 1
        rcases List.mem_append.mp hj with h1 | h1
        · have := hheld j h1; omega
        · have h2 : j = p.next := List.mem_singleton.mp h1
          omega
      · intro e he1
        have hsub := hstored e (mem_lookup_entries p.cache q addr now e he1)
        refine ⟨show e.2.msg < p.next + 1 by omega, ?_⟩
        show e.2.msg ∉ p.held ++ [p.next]
        intro hmem
        rcases List.mem_append.mp hmem with h1 | h1
        · exact hsub.2 h1
        · have h2 : e.2.msg = p.next := List.mem_singleton.mp h1
          omega
      · intro e he1
        show e.1 < p.next + 1
        rcases List.mem_append.mp he1 with h1 | h1
        · have := hkeys e h1; omega
        · have h2 : e = (p.next, heapGetD p.heap i) := List.mem_singleton.mp h1
          rw [h2]
          exact Nat.lt_succ_self p.next
      · exact heapDom_snoc p.heap p.next _ hdom

lemma alias_step_clear (p : PtrState) (s : ValState) (h : AliasInv p s) :
    AliasInv (applyPtrOp p AliasOp.clear).1 (applyValOp s AliasOp.clear).1 ∧
      (applyPtrOp p AliasOp.clear).2 = (applyValOp s AliasOp.clear).2 := by
  obtain ⟨hc, he, hnd, hheld, hstored, hkeys, hdom⟩ := h
  simp only [applyPtrOp, applyValOp]
  refine ⟨⟨?_, he, hnd, hheld, ?_, hkeys, hdom⟩, by trivial⟩
  · rw [hc]; rfl
  · intro e he1
    exact absurd he1 (List.not_mem_nil e)

lemma alias_step (p : PtrState) (s : ValState) (op : AliasOp) (h : AliasInv p s) :
    AliasInv (applyPtrOp p op).1 (applyValOp s op).1 ∧
      (applyPtrOp p op).2 = (applyValOp s op).2 := by
  cases op with
  | clientNew m => exact alias_step_clientNew p s m h
  | mutate k m => exact alias_step_mutate p s k m h
  | update q addr k ttl now => exact alias_step_update p s q addr k ttl now h
  | lookup q addr now => exact alias_step_lookup p s q addr now h
  | clear => exact alias_step_clear p s h

lemma alias_run (ops : List AliasOp) :
    ∀ (p : PtrState) (s : ValState), AliasInv p s →
      AliasInv (runPtr p ops).1 (runVal s ops).1 ∧ (runPtr p ops).2 = (runVal s ops).2 := by
  induction ops with
  | nil => intro p s h; exact ⟨h, rfl⟩
  | cons op ops ih =>
      intro p s h
      obtain ⟨h1, h2⟩ := alias_step p s op h
      obtain ⟨h3, h4⟩ := ih _ _ h1
      simp only [runPtr, runVal]
      exact ⟨h3, by rw [h2, h4]⟩

/-- The pointer-level initial state: empty heap, nothing held, fresh
cache. -/
def ptrInit (maxSize : Int) : PtrState :=
  { next := 0, heap := [], held := [], cache := Cache.new Nat maxSize }

/-- The value-level initial state. -/
def valInit (maxSize : Int) : ValState :=
  { env := [], cache := Cache.new DnsMsg maxSize }

/-- Claim C10 (confirmed): the cache never aliases caller-held messages.
`Cache.Update` stores `resp.Copy()` and `Cache.Lookup` returns
`ci.msg.Copy()`; modelling pointers as heap ids and `Copy` as fresh
allocation, every experiment of caller operations (allocate a message,
mutate a held message through its pointer, pass a held message to Update,
call Lookup, Clear) reports exactly the lookup results of a pure by-value
cache, on which mutation of caller messages acts trivially; the
dereferenced cached entries coincide with the value cache throughout, and
mutating any held message leaves the dereferenced cache contents
unchanged. -/
theorem C10_no_alias (maxSize : Int) (ops : List AliasOp) :
    (runPtr (ptrInit maxSize) ops).2 = (runVal (valInit maxSize) ops).2 ∧
    mapCache (heapGetD (runPtr (ptrInit maxSize) ops).1.heap)
        (runPtr (ptrInit maxSize) ops).1.cache
      = (runVal (valInit maxSize) ops).1.cache ∧
    ∀ (k : Nat) (m : DnsMsg),
      mapCache (heapGetD (applyPtrOp (runPtr (ptrInit maxSize) ops).1 (AliasOp.mutate k m)).1.heap)
          (applyPtrOp (runPtr (ptrInit maxSize) ops).1 (AliasOp.mutate k m)).1.cache
        = mapCache (heapGetD (runPtr (ptrInit maxSize) ops).1.heap)
            (runPtr (ptrInit maxSize) ops).1.cache := by
  obtain ⟨hinv, houts⟩ := alias_run ops (ptrInit maxSize) (valInit maxSize) (aliasInv_init maxSize)
  obtain ⟨hc, he, hnd, hheld, hstored, hkeys, hdom⟩ := hinv
  refine ⟨houts, hc.symm, ?_⟩
  intro k m
  simp only [applyPtrOp]
  cases hk : (runPtr (ptrInit maxSize) ops).1.held.get? k with
  | none => rfl
  | some i =>
      have him : i ∈ (runPtr (ptrInit maxSize) ops).1.held := List.get?_mem hk
      exact mapCache_congr (runPtr (ptrInit maxSize) ops).1.cache (fun e he1 =>
        heapGetD_heapSet_ne (runPtr (ptrInit maxSize) ops).1.heap i m e.2.msg
          (fun hei => (hstored e he1).2 (hei ▸ him)))

end DnsResolver
